import Mathlib

/-!
Verification development for the grpc-server-js core: a shallow embedding of
the metadata map, the compression filter and frame codec, the per-call state
machine, the options parser, the service registry, and the readable-side
message pipeline, together with theorems settling the specification claims.

Conventions of the embedding:
* JavaScript byte buffers are `List Nat` with every element below 256.
* JavaScript strings are Lean `String`s; header maps are association lists
  in assignment order, with the ECMAScript own-property enumeration order
  (canonical array-index keys first, in ascending numeric order, then the
  remaining string keys in insertion order) made explicit where the source
  iterates `Object.keys`.
* Mutation is threaded as explicit state; `throw` is `Except.error`.
-/

namespace GrpcJs

/-! ## Status codes (from the declaration file, `Status` enum) -/

def Status.OK : Nat := 0
def Status.CANCELLED : Nat := 1
def Status.UNKNOWN : Nat := 2
def Status.DEADLINE_EXCEEDED : Nat := 4
def Status.RESOURCE_EXHAUSTED : Nat := 8
def Status.OUT_OF_RANGE : Nat := 11
def Status.UNIMPLEMENTED : Nat := 12
def Status.INTERNAL : Nat := 13

/-- The HTTP/2 `NGHTTP2_CANCEL` error code used by RST_STREAM cancellation. -/
def NGHTTP2_CANCEL : Nat := 8

/-! ## Byte-level helpers: big-endian 32-bit length fields

`Buffer.writeUInt32BE` / `Buffer.readUInt32BE` on the 4 bytes following the
compression flag of a gRPC frame. -/

/-- Big-endian 4-byte encoding of a 32-bit value, as `writeUInt32BE` emits. -/
def be32 (n : Nat) : List Nat :=
  [n / 16777216 % 256, n / 65536 % 256, n / 256 % 256, n % 256]

/-- Big-endian read of 4 bytes, as `readUInt32BE` at a given offset. -/
def readUInt32BE (bytes : List Nat) (off : Nat) : Nat :=
  (bytes.getD off 0) * 16777216 + (bytes.getD (off + 1) 0) * 65536 +
    (bytes.getD (off + 2) 0) * 256 + bytes.getD (off + 3) 0

/-- Every byte of a JavaScript buffer is below 256. -/
def bytesWF (l : List Nat) : Prop := ∀ b ∈ l, b < 256

instance (l : List Nat) : Decidable (bytesWF l) := by
  unfold bytesWF; infer_instance

/-! ## Base64 (`Buffer.prototype.toString('base64')` / `Buffer.from(s, 'base64')`)

The encoder is RFC 4648 base64 with padding, which is what Node emits.  The
decoder models Node's lenient direction only as far as the claims need it:
it consumes the leading run of alphabet characters (a `=` or any other
non-alphabet character ends the data) and decodes it in groups of four
sextets, a trailing group of three sextets yielding two bytes, of two
sextets one byte, and a lone sextet nothing. -/

def b64alphabet : List Char :=
  "ABCDEFGHIJKLMNOPQRSTUVWXYZabcdefghijklmnopqrstuvwxyz0123456789+/".toList

def charOfSextet (s : Nat) : Char := b64alphabet.getD s 'A'

def sextetOfChar (c : Char) : Nat := b64alphabet.indexOf c

def isB64Char (c : Char) : Bool := b64alphabet.contains c

/-- Encode a byte list to base64 characters, three bytes to four characters,
with `=` padding for a trailing group of one or two bytes. -/
def b64encodeL : List Nat → List Char
  | [] => []
  | [a] =>
      [charOfSextet (a / 4), charOfSextet (a % 4 * 16), '=', '=']
  | [a, b] =>
      [charOfSextet (a / 4), charOfSextet (a % 4 * 16 + b / 16),
       charOfSextet (b % 16 * 4), '=']
  | a :: b :: c :: rest =>
      charOfSextet (a / 4) :: charOfSextet (a % 4 * 16 + b / 16) ::
        charOfSextet (b % 16 * 4 + c / 64) :: charOfSextet (c % 64) ::
        b64encodeL rest

/-- Decode a run of base64 sextet values (already mapped from characters). -/
def b64decodeSextets : List Nat → List Nat
  | s1 :: s2 :: s3 :: s4 :: rest =>
      (s1 * 4 + s2 / 16) :: (s2 % 16 * 16 + s3 / 4) :: (s3 % 4 * 64 + s4) ::
        b64decodeSextets rest
  | [s1, s2, s3] => [s1 * 4 + s2 / 16, s2 % 16 * 16 + s3 / 4]
  | [s1, s2] => [s1 * 4 + s2 / 16]
  | _ => []

def b64decodeL (cs : List Char) : List Nat :=
  b64decodeSextets ((cs.takeWhile isB64Char).map sextetOfChar)

def b64encode (bytes : List Nat) : String := String.mk (b64encodeL bytes)

def b64decode (s : String) : List Nat := b64decodeL s.toList

/-! ## List-level string operations

The embedding works on a string's character list wherever Lean's own
`String` functions recurse by well-founded position arithmetic, so that
every definition evaluates inside the kernel; each is semantically the
JavaScript operation named in its comment. -/

/-- `key.startsWith(pre)`. -/
def strStartsWith (s pre : String) : Bool :=
  s.toList.take pre.toList.length == pre.toList

/-- `key.endsWith(suffix)`. -/
def strEndsWith (s suffix : String) : Bool :=
  decide (suffix.toList.length ≤ s.toList.length) &&
    s.toList.drop (s.toList.length - suffix.toList.length) == suffix.toList

/-! ## Metadata (`lib/metadata.js`)

`Metadata` stores an insertion-ordered map from a normalized key to a
nonempty sequence of values; a value is a string for ordinary keys and a
byte buffer for keys ending in `-bin`.  The JavaScript `Map` preserves
insertion order, which the association list makes explicit. -/

/-- A metadata value: a JavaScript string or a `Buffer`. -/
inductive MDValue where
  | text (s : String)
  | bin (bytes : List Nat)
deriving DecidableEq, Repr

/-- `kLegalKeyRegex = /^[0-9a-z_.-]+$/` applied to one character. -/
def isLegalKeyChar (c : Char) : Bool :=
  (('0' ≤ c ∧ c ≤ '9') ∨ ('a' ≤ c ∧ c ≤ 'z') ∨ c = '_' ∨ c = '.' ∨ c = '-' : Prop)

/-- `kLegalKeyRegex.test(key)`. -/
def legalKey (key : String) : Bool :=
  key ≠ "" ∧ key.toList.all isLegalKeyChar

/-- `kLegalNonBinaryValueRegex = /^[ -~]*$/` : printable ASCII only. -/
def legalTextValue (s : String) : Bool :=
  s.toList.all fun c => ' ' ≤ c ∧ c ≤ '~'

/-- `isBinaryKey`: the key ends with `-bin`. -/
def isBinaryKey (key : String) : Bool := strEndsWith key "-bin"

/-- `isCustomMetadata`: the key does not start with `grpc-`. -/
def isCustomMetadata (key : String) : Bool := !strStartsWith key "grpc-"

/-- `normalizeKey`: lower-case the key (character by character, which is
what `String.toLower` does on these ASCII keys). -/
def normalizeKey (key : String) : String :=
  String.mk (key.toList.map Char.toLower)

/-- `validate(key, value)` for a present value; `Except.error` is `throw`.
The error strings are only compared for presence, so they are abbreviated. -/
def validateKV (key : String) (value : MDValue) : Except String Unit :=
  if !legalKey key then .error "illegal key" else
  match value with
  | .bin _ => if isBinaryKey key then .ok () else .error "bin value on non-bin key"
  | .text s =>
      if isBinaryKey key then .error "string value on bin key"
      else if !legalTextValue s then .error "illegal value characters"
      else .ok ()

/-- `validate(key)` with no value. -/
def validateK (key : String) : Except String Unit :=
  if legalKey key then .ok () else .error "illegal key"

/-- The `internalRepr` map: insertion-ordered, keys distinct. -/
abbrev MDRepr : Type := List (String × List MDValue)

/-- Append `v` to the sequence at `key` (which is present). -/
def mdAppendAt (repr : MDRepr) (key : String) (v : MDValue) : MDRepr :=
  repr.map fun kv => if kv.1 = key then (kv.1, kv.2 ++ [v]) else kv

/-- `Metadata.prototype.add`: normalize, validate, then append to the existing
sequence or create the key at the end of the map. -/
def mdAdd (repr : MDRepr) (key : String) (v : MDValue) :
    Except String MDRepr :=
  match validateKV (normalizeKey key) v with
  | .error e => .error e
  | .ok () =>
      if (repr.lookup (normalizeKey key)).isSome then
        .ok (mdAppendAt repr (normalizeKey key) v)
      else .ok (repr ++ [(normalizeKey key, [v])])

/-- `Metadata.prototype.set`: normalize, validate, replace the sequence. -/
def mdSet (repr : MDRepr) (key : String) (v : MDValue) :
    Except String MDRepr :=
  match validateKV (normalizeKey key) v with
  | .error e => .error e
  | .ok () =>
      if (repr.lookup (normalizeKey key)).isSome then
        .ok (repr.map fun kv =>
          if kv.1 = normalizeKey key then (kv.1, [v]) else kv)
      else .ok (repr ++ [(normalizeKey key, [v])])

/-- `Metadata.prototype.get`: the sequence at the key, or empty. -/
def mdGet (repr : MDRepr) (key : String) : List MDValue :=
  ((repr.lookup (normalizeKey key)).getD [])

/-- `Metadata.prototype.remove`: drop the key. -/
def mdRemove (repr : MDRepr) (key : String) : MDRepr :=
  repr.filter fun kv => kv.1 ≠ normalizeKey key

/-! ### HTTP/2 header objects and ECMAScript enumeration order

A header object is an association list in property-assignment order with
distinct keys.  `Object.keys` enumerates canonical array-index keys first in
ascending numeric order, then the remaining keys in insertion order
(ECMAScript OrdinaryOwnPropertyKeys); `reorderForEnumeration` makes that
explicit wherever the source iterates a header object. -/

/-- A header value: a single string, an array of strings, or absent
(`undefined`). -/
inductive HVal where
  | one (s : String)
  | many (l : List String)
  | undef
deriving DecidableEq, Repr

abbrev Headers : Type := List (String × HVal)

/-- The numeric value of a digit string. -/
def digitsToNat (cs : List Char) : Nat :=
  cs.foldl (fun acc c => acc * 10 + (c.toNat - '0'.toNat)) 0

/-- A canonical array-index property key: a canonical decimal numeral below
2^32 - 1 (ECMAScript array index). -/
def isArrayIndexKey (s : String) : Bool :=
  match s.toList with
  | [] => false
  | c :: rest =>
      (c :: rest).all Char.isDigit ∧ (c ≠ '0' ∨ rest = []) ∧
        digitsToNat (c :: rest) < 4294967295

/-- Stable insertion of an entry into a list ascending by numeric key. -/
def insertByNumericKey (x : String × HVal) :
    List (String × HVal) → List (String × HVal)
  | [] => [x]
  | y :: rest =>
      if digitsToNat y.1.toList ≤ digitsToNat x.1.toList then
        y :: insertByNumericKey x rest
      else x :: y :: rest

/-- Sort entries ascending by the numeric value of their keys. -/
def sortByNumericKey (l : List (String × HVal)) : List (String × HVal) :=
  l.foldr insertByNumericKey []

/-- Own-property enumeration order of a JavaScript object built by assigning
the listed keys in order: canonical array-index keys ascending, then the
rest in insertion order. -/
def reorderForEnumeration (hs : Headers) : Headers :=
  sortByNumericKey (hs.filter fun kv => isArrayIndexKey kv.1) ++
    hs.filter fun kv => !isArrayIndexKey kv.1

/-- One value on its way out: text passes through, buffers are
base64-encoded. -/
def mdValueToHeader (v : MDValue) : String :=
  match v with
  | .text s => s
  | .bin bytes => b64encode bytes

/-- `Metadata.prototype.toHttp2Headers`: each key maps, in map order, to the
array of its values, buffers base64-encoded. -/
def toHttp2Headers (repr : MDRepr) : Headers :=
  repr.map fun kv => (kv.1, HVal.many (kv.2.map mdValueToHeader))

/-- The characters `String.prototype.trim` removes; ASCII whitespace
suffices for the printable values metadata admits. -/
def isTrimmable (c : Char) : Bool :=
  c = ' ' ∨ c.toNat = 9 ∨ c.toNat = 10 ∨ c.toNat = 11 ∨ c.toNat = 12 ∨
    c.toNat = 13

/-- `value.trim()` on the pieces of a comma-split custom header line. -/
def jsTrim (s : String) : String :=
  String.mk
    (((s.toList.dropWhile isTrimmable).reverse.dropWhile isTrimmable).reverse)

/-- Split a character list at every comma. -/
def splitCommasL (cs : List Char) : List (List Char) :=
  cs.foldr
    (fun c acc =>
      if c = ',' then [] :: acc
      else
        match acc with
        | h :: t => (c :: h) :: t
        | [] => [[c]])
    [[]]

/-- `values.split(',')` on a single header line. -/
def splitCommas (s : String) : List String :=
  (splitCommasL s.toList).map String.mk

/-- The values a single header entry contributes, after the branch on
`Array.isArray`, the `-bin` base64 decoding, and the comma-splitting of
custom single-line headers; `undefined` contributes nothing. -/
def entryValues (key : String) (v : HVal) : List MDValue :=
  if isBinaryKey key then
    match v with
    | .many l => l.map fun s => .bin (b64decode s)
    | .one s =>
        if isCustomMetadata key then
          (splitCommas s).map fun p => .bin (b64decode (jsTrim p))
        else [.bin (b64decode s)]
    | .undef => []
  else
    match v with
    | .many l => l.map MDValue.text
    | .one s =>
        if isCustomMetadata key then
          (splitCommas s).map fun p => .text (jsTrim p)
        else [.text s]
    | .undef => []

/-- Add the values of one header entry in order; the first `add` that throws
aborts the rest of this entry (the `try` block wraps the whole entry) but
keeps what was already added, and records one log line. -/
def addEntryValues (repr : MDRepr) (key : String) (vs : List MDValue) :
    MDRepr × Bool :=
  match vs with
  | [] => (repr, false)
  | v :: rest =>
      match mdAdd repr key v with
      | .error _ => (repr, true)
      | .ok repr1 => addEntryValues repr1 key rest

/-- The body of the `Object.keys(headers).forEach` of `fromHttp2Headers`
for one entry: skip reserved `:`-keys, otherwise import the entry's values
under the try/catch, counting a log line when it throws. -/
def importEntry (acc : MDRepr × Nat) (kv : String × HVal) : MDRepr × Nat :=
  if strStartsWith kv.1 ":" then acc
  else
    let r := addEntryValues acc.1 kv.1 (entryValues kv.1 kv.2)
    (r.1, acc.2 + if r.2 then 1 else 0)

/-- `Metadata.fromHttp2Headers`: iterate the object's enumeration order,
importing each entry; the result also carries the count of
caught-and-logged errors. -/
def fromHttp2Headers (headers : Headers) : MDRepr × Nat :=
  (reorderForEnumeration headers).foldl importEntry ([], 0)

/-! ## Compression (`compression-filter.js`)

`CompressionHandler.writeMessage` frames a message: one compression-flag
byte, a 4-byte big-endian length, then the payload.  `readMessage` inspects
`data.readUInt8(1)` — byte offset one, as in the source — slices off the
5-byte header, and decompresses if that byte equals one.  The zlib
compressors are external, so the frame codec is parametric in the
compress/decompress pair; `IdentityHandler` overrides `writeMessage` to
always write flag zero, and both of its compress/decompress methods throw. -/

/-- `CompressionHandler.prototype.writeMessage` with the subclass's
`compressMessage`. -/
def writeMessage (compressMessage : List Nat → List Nat)
    (message : List Nat) (compress : Bool) : List Nat :=
  let payload := if compress then compressMessage message else message
  (if compress then 1 else 0) :: be32 payload.length ++ payload

/-- `CompressionHandler.prototype.readMessage` with the subclass's
`decompressMessage` (which may fail, as zlib does on garbage). -/
def readMessage (decompressMessage : List Nat → Except String (List Nat))
    (data : List Nat) : Except String (List Nat) :=
  let compressed := data.getD 1 0 = 1
  let message := data.drop 5
  if compressed then decompressMessage message else .ok message

/-- `IdentityHandler.prototype.writeMessage`: the flag byte is always 0. -/
def identityWriteMessage (message : List Nat) (_compress : Bool) : List Nat :=
  0 :: be32 message.length ++ message

/-- `IdentityHandler.prototype.decompressMessage` always throws. -/
def identityDecompressMessage (_message : List Nat) :
    Except String (List Nat) :=
  .error "Identity encoding does not support compression"

/-- `IdentityHandler.prototype.readMessage` is the inherited reader with the
throwing decompressor. -/
def identityReadMessage (data : List Nat) : Except String (List Nat) :=
  readMessage identityDecompressMessage data

/-- The compression methods the `CompressionMethodMap` constructor registers,
in registration order. -/
def supportedCompression : List String := ["identity", "deflate", "gzip"]

/-- `CompressionMethodMap.prototype.getInstance`, tracking handlers by name:
unsupported names throw. -/
def getInstanceName (name : String) : Except String String :=
  if supportedCompression.contains name then .ok name
  else .error ("Compression method not supported: " ++ name)

/-- The mutable state of a `CompressionFilter`: the outbound and inbound
handler names and the advertised accept list. -/
structure CFilter where
  send : String
  receive : String
  accepts : List String
deriving DecidableEq, Repr

/-- A fresh filter: both directions default to identity and the accept list
advertises every registered method. -/
def cfilterInit : CFilter :=
  { send := "identity", receive := "identity",
    accepts := supportedCompression }

/-- The string content of a metadata value; non-`-bin` keys only ever hold
text values, so the buffer branch is unreachable where this is used. -/
def mdValueText (v : MDValue) : String :=
  match v with
  | .text s => s
  | .bin _ => ""

/-- `CompressionFilter.prototype.receiveMetadata`: install the advertised
inbound decoder, adopt the peer's accept list, then align the outbound
encoder — the branch where the peer does not accept the inbound encoding
also installs the inbound encoding (its comment says it means to fall back
to identity) — and strip both headers. -/
def cfilterReceiveMetadata (st : CFilter) (md : MDRepr) :
    Except String (CFilter × MDRepr) := do
  let receiveEncoding := mdGet md "grpc-encoding"
  let st1 ←
    match receiveEncoding.head? with
    | some v =>
        let encoding := mdValueText v
        if encoding ≠ st.receive then do
          let inst ← getInstanceName encoding
          pure { st with receive := inst }
        else pure st
    | none => pure st
  let acceptedEncoding := mdGet md "grpc-accept-encoding"
  let st2 :=
    if acceptedEncoding ≠ [] then
      { st1 with accepts := acceptedEncoding.map mdValueText }
    else st1
  let st3 ←
    if st2.accepts.contains st2.receive then
      if st2.send ≠ st2.receive then do
        let inst ← getInstanceName st2.receive
        pure { st2 with send := inst }
      else pure st2
    else
      if st2.send ≠ "identity" then do
        let inst ← getInstanceName st2.receive
        pure { st2 with send := inst }
      else pure st2
  let md1 := mdRemove (mdRemove md "grpc-encoding") "grpc-accept-encoding"
  pure (st3, md1)

/-- `CompressionFilter.prototype.serializeMessage`: always writes with
`compress = false` (the flag support is a TODO in the source), through the
current send handler; with identity send this is `identityWriteMessage`. -/
def cfilterSerializeMessage (message : List Nat) : List Nat :=
  identityWriteMessage message false

/-! ## Server options (`parseOptions`)

Option values are JavaScript numbers; the embedding distinguishes finite
integers, `Infinity`, and `undefined` (the default of
`grpc.max_concurrent_streams`). -/

inductive OptVal where
  | int (n : Int)
  | infinity
  | undef
deriving DecidableEq, Repr

/-- The `defaultServerOptions` object; `maxFrameSize` defaults to the HTTP/2
default setting (16384). -/
def defaultServerOptions : List (String × OptVal) :=
  [("grpc.max_concurrent_streams", .undef),
   ("grpc.http2.max_frame_size", .int 16384),
   ("grpc.keepalive_time_ms", .int 7200000),
   ("grpc.keepalive_timeout_ms", .int 20000),
   ("grpc.max_send_message_length", .infinity),
   ("grpc.max_receive_message_length", .int 4194304)]

/-- The camel-cased result of `parseOptions`. -/
structure ParsedOptions where
  maxConcurrentStreams : OptVal
  maxFrameSize : OptVal
  keepaliveTimeMs : OptVal
  keepaliveTimeoutMs : OptVal
  maxSendMessageLength : OptVal
  maxReceiveMessageLength : OptVal
deriving DecidableEq, Repr

/-- Merged-object lookup: the input value wins over the default. -/
def mergedOption (input : List (String × OptVal)) (key : String) : OptVal :=
  match input.lookup key with
  | some v => v
  | none => (defaultServerOptions.lookup key).getD (.undef)

/-- `grpc.max_{send,receive}_message_length` use -1 for "no limit". -/
def minusOneToInfinity (v : OptVal) : OptVal :=
  if v = .int (-1) then .infinity else v

/-- `parseOptions`: merge with the defaults, reject unknown keys, map to
camel-case names, and turn -1 message-length limits into `Infinity`. -/
def parseOptions (input : List (String × OptVal)) :
    Except String ParsedOptions :=
  match input.find? fun kv =>
      (defaultServerOptions.lookup kv.1).isNone with
  | some kv => .error ("unknown option: " ++ kv.1)
  | none =>
      .ok { maxConcurrentStreams := mergedOption input "grpc.max_concurrent_streams",
            maxFrameSize := mergedOption input "grpc.http2.max_frame_size",
            keepaliveTimeMs := mergedOption input "grpc.keepalive_time_ms",
            keepaliveTimeoutMs := mergedOption input "grpc.keepalive_timeout_ms",
            maxSendMessageLength :=
              minusOneToInfinity (mergedOption input "grpc.max_send_message_length"),
            maxReceiveMessageLength :=
              minusOneToInfinity (mergedOption input "grpc.max_receive_message_length") }

/-! ## Message size limits

The `ServerCall` variant that receives the parsed options (the stream
dispatch constructs it as `new ServerCall(stream, grpcServer[kOptions])`)
and enforces the two message-length limits is not among the sources; only
its caller and its tests (`test/compression.js`, "Maximum Message Size")
are.  The checks below are modelled from the spec. -/

/-- A gRPC status error raised by the size checks. -/
structure GrpcError where
  code : Nat
  details : String
deriving DecidableEq, Repr

/-- The JavaScript comparison `length > limit`: false against `Infinity`
and against `undefined` (NaN comparisons are false). -/
def exceedsLimit (limit : OptVal) (length : Nat) : Bool :=
  match limit with
  | .int l => (length : Int) > l
  | .infinity => false
  | .undef => false

/-- Render a limit the way a JavaScript template literal would. -/
def optValText (v : OptVal) : String :=
  match v with
  | .int n => toString n
  | .infinity => "Infinity"
  | .undef => "undefined"

/-- Modelled from the spec: the send-side size check of
`ServerCall.serializeMessage` (the options-aware `ServerCall` is missing
from the sources).  A serialized message longer than
`maxSendMessageLength` fails with `RESOURCE_EXHAUSTED` and the details
`"Sent message larger than max (<N> vs. <L>)"`; otherwise the message is
framed through the compression write path. -/
def serializeMessageChecked (opts : ParsedOptions) (messageBuffer : List Nat) :
    Except GrpcError (List Nat) :=
  if exceedsLimit opts.maxSendMessageLength messageBuffer.length then
    .error { code := Status.RESOURCE_EXHAUSTED,
             details := "Sent message larger than max (" ++
               toString messageBuffer.length ++ " vs. " ++
               optValText opts.maxSendMessageLength ++ ")" }
  else .ok (cfilterSerializeMessage messageBuffer)

/-- Modelled from the spec: the receive-side size check of
`ServerCall.deserializeMessage` (the options-aware `ServerCall` is missing
from the sources).  An inbound frame whose declared length — the big-endian
word after the flag byte — exceeds `maxReceiveMessageLength` fails with
`RESOURCE_EXHAUSTED` and the details
`"Received message larger than max (<N> vs. <L>)"`; otherwise the frame is
read through the compression read path. -/
def deserializeMessageChecked (opts : ParsedOptions) (bytes : List Nat) :
    Except GrpcError (List Nat) :=
  let declared := readUInt32BE bytes 1
  if exceedsLimit opts.maxReceiveMessageLength declared then
    .error { code := Status.RESOURCE_EXHAUSTED,
             details := "Received message larger than max (" ++
               toString declared ++ " vs. " ++
               optValText opts.maxReceiveMessageLength ++ ")" }
  else
    match identityReadMessage bytes with
    | .ok m => .ok m
    | .error e => .error { code := Status.INTERNAL, details := e }

/-! ## The grpc-timeout pattern

`kDeadlineRegex = /(\d{1,8})\s*([HMSmun])/` is unanchored: `String.match`
finds the leftmost position admitting a match, and at that position the
greedy `\d{1,8}` backtracks from the longest digit run (capped at 8).
`\s*` is deterministic here because no whitespace character is a unit
letter. -/

def isDeadlineUnitChar (c : Char) : Bool :=
  c ∈ ['H', 'M', 'S', 'm', 'u', 'n']

/-- The characters `\s` matches, restricted to the ASCII range plus NBSP;
metadata values are printable ASCII, so only the space character can occur
in the strings this is applied to. -/
def isJsWhitespace (c : Char) : Bool :=
  c = ' ' ∨ c.toNat = 9 ∨ c.toNat = 10 ∨ c.toNat = 11 ∨ c.toNat = 12 ∨
    c.toNat = 13 ∨ c.toNat = 160

/-- Try digit counts `k, k-1, …, 1` at the start of `l` (every such count
lies within the leading digit run when called from `deadlineMatchHere`),
each followed by `\s*` and a unit letter. -/
def tryDigitCounts (l : List Char) : Nat → Option (String × Char)
  | 0 => none
  | k + 1 =>
      let rest := (l.drop (k + 1)).dropWhile isJsWhitespace
      match rest.head? with
      | some c =>
          if isDeadlineUnitChar c then some (String.mk (l.take (k + 1)), c)
          else tryDigitCounts l k
      | none => tryDigitCounts l k

/-- Match the deadline pattern anchored at the start of `l`. -/
def deadlineMatchHere (l : List Char) : Option (String × Char) :=
  tryDigitCounts l (min (l.takeWhile Char.isDigit).length 8)

/-- `String.match(kDeadlineRegex)`: the leftmost match, as captured digit
string and unit character, or `none`. -/
def deadlineSearch : List Char → Option (String × Char)
  | [] => none
  | c :: rest =>
      match deadlineMatchHere (c :: rest) with
      | some r => some r
      | none => deadlineSearch rest

def deadlineMatchStr (s : String) : Option (String × Char) :=
  deadlineSearch s.toList

/-- The spec-side syntax `\d{1,8}[HMSmun]` read as the shape of the whole
header value, stated from the spec's words for comparison with the code's
unanchored search. -/
def specDeadlineSyntax (s : String) : Bool :=
  let cs := s.toList
  !cs.dropLast.isEmpty && cs.dropLast.length ≤ 8 &&
    cs.dropLast.all Char.isDigit &&
    (match cs.getLast? with
     | some c => isDeadlineUnitChar c
     | none => false)

/-- `(+digits * deadlineUnitsToMs[unit]) | 0` before the int32 conversion:
for at most eight digits the IEEE-double products floor to the same integer
as exact arithmetic (the H/M/S/m products are integers below 2^53; the `u`
and `n` products deviate from the exact quotient by far less than its
distance to the nearest other integer), so the embedding uses exact
multiplication and flooring division. -/
def timeoutMs (digits : String) (unit : Char) : Nat :=
  let v := digitsToNat digits.toList
  if unit = 'H' then v * 3600000
  else if unit = 'M' then v * 60000
  else if unit = 'S' then v * 1000
  else if unit = 'm' then v
  else if unit = 'u' then v / 1000
  else v / 1000000

/-- The `| 0` conversion: ToInt32 of a nonnegative integral double. -/
def toInt32 (v : Nat) : Int :=
  let r := v % 4294967296
  if r < 2147483648 then (r : Int) else (r : Int) - 4294967296

/-! ## encodeURI (for the `grpc-message` trailer) -/

/-- The code points `encodeURI` leaves unescaped: ASCII alphanumerics and
`; / ? : @ & = + $ , - _ . ! ~ * ( ) #` together with the apostrophe
(code 39). -/
def isUriUnescaped (n : Nat) : Bool :=
  (48 ≤ n ∧ n ≤ 57) ∨ (65 ≤ n ∧ n ≤ 90) ∨ (97 ≤ n ∧ n ≤ 122) ∨
    n ∈ [33, 35, 36, 38, 39, 40, 41, 42, 43, 44, 45, 46, 47, 58, 59, 61,
         63, 64, 95, 126]

def hexDigitChar (n : Nat) : Char := "0123456789ABCDEF".toList.getD n '0'

/-- UTF-8 bytes of a code point (surrogate handling is irrelevant for the
ASCII details strings this is applied to). -/
def utf8Bytes (n : Nat) : List Nat :=
  if n < 128 then [n]
  else if n < 2048 then [192 + n / 64, 128 + n % 64]
  else if n < 65536 then [224 + n / 4096, 128 + n / 64 % 64, 128 + n % 64]
  else [240 + n / 262144, 128 + n / 4096 % 64, 128 + n / 64 % 64, 128 + n % 64]

def percentByte (b : Nat) : List Char :=
  ['%', hexDigitChar (b / 16), hexDigitChar (b % 16)]

/-- `encodeURI(details)` as used by `onWantTrailers`. -/
def encodeURIStr (s : String) : String :=
  String.mk ((s.toList.map fun c =>
    if isUriUnescaped c.toNat then [c]
    else ((utf8Bytes c.toNat).map percentByte).flatten).flatten)

/-! ## ServerCall (`server-call.js`, the variant with its own Metadata)

One HTTP/2 stream's call state.  The underlying stream is folded into the
same record: `written` collects the DATA writes, `respondedHeaders` the
response-header frame, `sentTrailers` the trailer frame (the
`wantTrailers` callback runs when the stream ends, since every respond
passes `waitForTrailers`), and `events` the `'cancelled'` emissions (the
wrapper installs a `once` listener, and each emission below is the only
one on its path). `deadline` holds the armed timer's delay, `none` being
the cleared/null timer. -/

structure CallStatus where
  code : Nat
  details : String
  metadata : Option MDRepr
deriving DecidableEq, Repr

structure ServerCall where
  cancelled : Bool
  deadline : Option Int
  compression : CFilter
  metadataSent : Bool
  status : CallStatus
  streamDestroyed : Bool
  streamEnded : Bool
  respondedHeaders : Option Headers
  sentTrailers : Option Headers
  written : List (List Nat)
  events : List (String × String)
deriving DecidableEq, Repr

/-- The constructor's state: status OK/"OK", no deadline, fresh filter. -/
def serverCallInit : ServerCall :=
  { cancelled := false, deadline := none, compression := cfilterInit,
    metadataSent := false,
    status := { code := Status.OK, details := "OK", metadata := none },
    streamDestroyed := false, streamEnded := false,
    respondedHeaders := none, sentTrailers := none,
    written := [], events := [] }

/-- A JavaScript error value as `sendError` inspects it: an optional
`message`, an optional integer `code` (presence stands for a property that
passes `Number.isInteger`), an optional string `details`, an optional
`metadata`. -/
structure JsError where
  message : Option String := none
  code : Option Nat := none
  details : Option String := none
  metadata : Option MDRepr := none
deriving DecidableEq, Repr

/-- The headers `sendMetadata` responds with before any custom metadata. -/
def defaultCallHeaders (cf : CFilter) : Headers :=
  [("grpc-encoding", .one cf.send),
   ("grpc-accept-encoding", .one (String.intercalate "," cf.accepts)),
   (":status", .one "200"),
   ("content-type", .one "application/grpc+proto")]

/-- `ServerCall.prototype.sendMetadata`: idempotent, and a no-op once the
call is cancelled or the stream destroyed. -/
def sendMetadataCall (s : ServerCall) (custom : Option MDRepr) : ServerCall :=
  if s.metadataSent ∨ s.cancelled ∨ s.streamDestroyed then s
  else
    { s with metadataSent := true
             respondedHeaders := some (defaultCallHeaders s.compression ++
               (match custom with
                | some md => toHttp2Headers md
                | none => [])) }

/-- `onWantTrailers`: `grpc-status`, percent-encoded `grpc-message`, and
the headers of any metadata attached to the final status. -/
def trailersToSend (st : CallStatus) : Headers :=
  [("grpc-status", .one (toString st.code)),
   ("grpc-message", .one (encodeURIStr st.details))] ++
    (match st.metadata with
     | some md => toHttp2Headers md
     | none => [])

/-- `ServerCall.prototype.end`: a no-op when cancelled or destroyed;
otherwise clears the deadline, sends headers if not yet sent, writes the
final payload, ends the stream, and (through `wantTrailers`) emits the
trailers. -/
def endCall (s : ServerCall) (payload : Option (List Nat)) : ServerCall :=
  if s.cancelled ∨ s.streamDestroyed then s
  else
    let s1 := sendMetadataCall { s with deadline := none } none
    let s2 := { s1 with written := s1.written ++ payload.toList
                        streamEnded := true }
    { s2 with sentTrailers := some (trailersToSend s2.status) }

/-- `ServerCall.prototype.write`: a no-op when cancelled or destroyed. -/
def writeCall (s : ServerCall) (chunk : List Nat) : ServerCall :=
  if s.cancelled ∨ s.streamDestroyed then s
  else
    let s1 := sendMetadataCall s none
    { s1 with written := s1.written ++ [chunk] }

/-- `ServerCall.prototype.sendError`: derive the status from the error
value (integer `code` wins over the default, string `details` over
`message`, `metadata` replaces the status metadata) and end the stream. -/
def sendError (s : ServerCall) (e : JsError)
    (code : Nat := Status.UNKNOWN) : ServerCall :=
  let details0 := match e.message with
    | some m => m
    | none => "Unknown Error"
  let (code1, details1) := match e.code with
    | some c =>
        (c, match e.details with
            | some d => d
            | none => details0)
    | none => (code, details0)
  let md1 := match e.metadata with
    | some md => some md
    | none => s.status.metadata
  endCall { s with status := { code := code1, details := details1,
                               metadata := md1 } } none

/-- `onStreamClose`: the stream is gone; RST_STREAM with `NGHTTP2_CANCEL`
marks the call cancelled and emits the one-shot `'cancelled'` event with
reason `"cancelled"`. -/
def onStreamCloseCall (s : ServerCall) (rstCode : Nat) : ServerCall :=
  let s1 := { s with streamDestroyed := true }
  if rstCode = NGHTTP2_CANCEL then
    { s1 with cancelled := true
              events := s1.events ++ [("cancelled", "cancelled")] }
  else s1

/-- `handleExpiredDeadline`: the armed timer fired; fail the call with
`DEADLINE_EXCEEDED`, mark it cancelled, and emit the `'cancelled'` event
with reason `"deadline"`. -/
def handleExpiredDeadlineCall (s : ServerCall) : ServerCall :=
  let s1 := sendError s { message := some "Deadline exceeded" }
    Status.DEADLINE_EXCEEDED
  { s1 with cancelled := true
            events := s1.events ++ [("cancelled", "deadline")] }

/-- `ServerCall.prototype.receiveMetadata`: import the HTTP/2 headers, run
the compression filter (whose unsupported-encoding throw propagates), then
handle `grpc-timeout`: an unmatched value fails the call with
`OUT_OF_RANGE` and details `"Invalid deadline"` (returning `undefined`),
and a matched one arms the deadline timer and strips the header. -/
def receiveMetadataCall (s : ServerCall) (headers : Headers) :
    Except String (ServerCall × Option MDRepr) := do
  let md := (fromHttp2Headers headers).1
  let (cf, md1) ← cfilterReceiveMetadata s.compression md
  let s1 := { s with compression := cf }
  match (mdGet md1 "grpc-timeout").head? with
  | none => .ok (s1, some md1)
  | some v =>
      match deadlineMatchStr (mdValueText v) with
      | none =>
          .ok (sendError s1 { message := some "Invalid deadline" }
            Status.OUT_OF_RANGE, none)
      | some (digits, unit) =>
          let t := toInt32 (timeoutMs digits unit)
          .ok ({ s1 with deadline := some t }, some (mdRemove md1 "grpc-timeout"))

/-! ## Service registration and dispatch (`server.js`)

`addService` derives the call shape from the two stream flags, binds the
exported implementation (preferring the service key over `originalName`),
falls back to `getDefaultHandler(methodType, name)` — note: the method
*name*, not `attrs.path` — and registers under `attrs.path`.  The stream
dispatch answers a `:path` miss with
`getUnimplementedStatusResponse(path)`. -/

/-- One method descriptor of a service definition. -/
structure MethodAttrs where
  path : String
  requestStream : Bool
  responseStream : Bool
  originalName : Option String
deriving DecidableEq, Repr

/-- `kUnaryHandlerType` .. `kBidiHandlerType` as derived in `addService`. -/
def methodTypeOf (attrs : MethodAttrs) : Nat :=
  if attrs.requestStream then
    if attrs.responseStream then 3 else 1
  else
    if attrs.responseStream then 2 else 0

/-- A status-shaped response object. -/
structure StatusResponse where
  code : Nat
  details : String
deriving DecidableEq, Repr

/-- `getUnimplementedStatusResponse(path)`. -/
def getUnimplementedStatusResponse (path : String) : StatusResponse :=
  { code := Status.UNIMPLEMENTED,
    details := "The server does not implement the method " ++ path }

/-- A registered handler function: either the user's bound implementation
(tracked by the name it was found under) or the synthetic default handler,
which immediately responds with its stored status (through the callback
for the unary shapes and an error event for the streaming shapes). -/
inductive HandlerFunc where
  | userImpl (name : String)
  | defaultHandler (response : StatusResponse)
deriving DecidableEq, Repr

/-- `getDefaultHandler(handlerType, callName)`: every shape immediately
emits `getUnimplementedStatusResponse(callName)`. -/
def getDefaultHandler (handlerType : Nat) (callName : String) :
    Except String HandlerFunc :=
  if handlerType ≤ 3 then
    .ok (.defaultHandler (getUnimplementedStatusResponse callName))
  else .error ("Invalid handler type " ++ toString handlerType)

/-- A handler registry entry (the serializer callbacks are external opaque
values and are not tracked). -/
structure HandlerEntry where
  func : HandlerFunc
  type : Nat
  path : String
deriving DecidableEq, Repr

abbrev HandlerMap : Type := List (String × HandlerEntry)

/-- `Server.prototype.register`: refuse duplicates, else insert. -/
def registerHandler (handlers : HandlerMap) (name : String)
    (func : HandlerFunc) (type : Nat) : Option HandlerMap :=
  if (handlers.lookup name).isSome then none
  else some (handlers ++ [(name, { func := func, type := type, path := name })])

/-- The `serviceKeys.forEach` body of `addService` for one method: derive
the shape, pick the implementation (service key first, `originalName`
second), fall back to the default handler built from the *name*, and
register under `attrs.path`. -/
def addServiceMethod (implementation : List String) (handlers : HandlerMap)
    (name : String) (attrs : MethodAttrs) : Except String HandlerMap := do
  let methodType := methodTypeOf attrs
  let implFound :=
    if implementation.contains name then some name
    else match attrs.originalName with
      | some o => if implementation.contains o then some o else none
      | none => none
  let impl ←
    match implFound with
    | some n => pure (HandlerFunc.userImpl n)
    | none => getDefaultHandler methodType name
  match registerHandler handlers attrs.path impl methodType with
  | some handlers1 => pure handlers1
  | none => .error ("Method handler for " ++ attrs.path ++ " already provided.")

/-- `Server.prototype.addService` over the service's keys in order
(started-server and argument-shape guards precede this loop and are not
claim-relevant). -/
def addService (implementation : List String) (handlers : HandlerMap)
    (service : List (String × MethodAttrs)) : Except String HandlerMap :=
  service.foldlM
    (fun hs kv => addServiceMethod implementation hs kv.1 kv.2) handlers

/-- The `:path` dispatch of `setupHandlers`: a registry miss sends
`getUnimplementedStatusResponse(path)` through `call.sendError`. -/
def dispatchPath (handlers : HandlerMap) (call : ServerCall) (path : String) :
    ServerCall ⊕ HandlerEntry :=
  match handlers.lookup path with
  | none =>
      let resp := getUnimplementedStatusResponse path
      .inl (sendError call { message := none
                             code := some resp.code
                             details := some resp.details })
  | some h => .inr h

/-! ## The readable-side message pipeline (`handler.js`)

`setUpReadable` routes every framed message the decoder liberates through
`readablePushOrBufferMessage`: while a deserialization is awaited
(`isPushPending`), new frames — and the `null` end sentinel — are appended
to `bufferedMessages`; otherwise `readablePushMessage` starts the
asynchronous deserialization, and its continuation pushes the result (or
queues it on `messagesToPush` when the readable is not pulling) and then
advances to the next buffered frame.  `_read` drains `messagesToPush` in
order and resumes the HTTP/2 stream.

The embedding makes the suspension explicit: `RState.pending` holds the
frame whose deserialization is in flight (`isPushPending` is exactly its
presence), and the `complete` event is the continuation running.  `push`
return values come from the oracle `cap` (indexed by push count; `push(null)`
returns false), `deser` is the user deserializer (which may throw), and
`arrived` is the ghost wire-order list of frames. -/

structure RState (α β : Type) where
  canPush : Bool
  pending : Option α
  buffered : List (Option α)
  toPush : List (Option β)
  pushed : List (Option β)
  paused : Bool
  errored : Bool
  pushCount : Nat
  ended : Bool
  arrived : List α
deriving DecidableEq, Repr

/-- The state `setUpReadable` installs. -/
def rsInit {α β : Type} : RState α β :=
  { canPush := false, pending := none, buffered := [], toPush := [],
    pushed := [], paused := false, errored := false, pushCount := 0,
    ended := false, arrived := [] }

variable {α β : Type}

/-- `this.push(v)`: record the chunk and report the backpressure value
(false for `null`). -/
def jsPush (cap : Nat → Bool) (s : RState α β) (v : Option β) :
    RState α β × Bool :=
  ({ s with pushed := s.pushed ++ [v], pushCount := s.pushCount + 1 },
   match v with
   | none => false
   | some _ => cap s.pushCount)

/-- `readablePushMessage` up to its first suspension: `null` is pushed or
queued at once; a frame starts the awaited deserialization. -/
def pushMessage (cap : Nat → Bool) (s : RState α β) (m : Option α) :
    RState α β :=
  match m with
  | none =>
      if s.canPush then (jsPush cap s none).1
      else { s with toPush := s.toPush ++ [none] }
  | some fr => { s with pending := some fr }

/-- `readablePushOrBufferMessage`. -/
def pushOrBuffer (cap : Nat → Bool) (s : RState α β) (m : Option α) :
    RState α β :=
  if s.pending.isSome then { s with buffered := s.buffered ++ [m] }
  else pushMessage cap s m

/-- The push-or-queue step of the continuation: deliver the deserialized
message at once when the readable is pulling (clearing `canPush` and
pausing the stream when `push` reports backpressure), or append it to
`messagesToPush`. -/
def pushDeserialized (cap : Nat → Bool) (s : RState α β) (d : β) :
    RState α β :=
  if s.canPush then
    let r := jsPush cap s (some d)
    if r.2 then r.1
    else { r.1 with canPush := false, paused := true }
  else { s with toPush := s.toPush ++ [some d] }

/-- The tail of the continuation: once `isPushPending` is cleared, shift
the next buffered message, if any, into `readablePushMessage`. -/
def advanceBuffered (cap : Nat → Bool) (s2 : RState α β) : RState α β :=
  match s2.buffered with
  | [] => s2
  | m :: rest => pushMessage cap { s2 with buffered := rest } m

/-- The continuation of `readablePushMessage` after `await
deserializeMessage(fr)`: push or queue the result — a failed
deserialization discards the buffered frames and raises the error — clear
`isPushPending`, and advance to the next buffered message. -/
def completeDeser (cap : Nat → Bool) (deser : α → Except String β)
    (s : RState α β) (fr : α) : RState α β :=
  match deser fr with
  | .error _ =>
      { s with buffered := [], errored := true, pending := none }
  | .ok d =>
      advanceBuffered cap { pushDeserialized cap s d with pending := none }

/-- One frame of the `'data'` handler loop, with the ghost record of its
arrival. -/
def arriveOne (cap : Nat → Bool) (s : RState α β) (m : α) : RState α β :=
  pushOrBuffer cap { s with arrived := s.arrived ++ [m] } (some m)

/-- The `_read` drain loop over `messagesToPush` (carried as the list
argument; the leftover is written back when the loop stops early). -/
def readDrainLoop (cap : Nat → Bool) :
    List (Option β) → RState α β → RState α β
  | [], s => { s with paused := false }
  | m :: rest, s =>
      let r := jsPush cap s m
      if m.isNone ∨ r.2 = false then
        { r.1 with canPush := false, toPush := rest }
      else readDrainLoop cap rest r.1

/-- `_read`: allow pushing and drain the queued messages. -/
def readEvent (cap : Nat → Bool) (s : RState α β) : RState α β :=
  readDrainLoop cap s.toPush { s with canPush := true, toPush := [] }

/-- The events interleaving on one readable stream: a `'data'` batch of
decoded frames, the `'end'` event, the resumption of the awaited
deserialization, and a `_read` pull. -/
inductive REvent (α : Type) where
  | dataEvt (frames : List α)
  | endEvt
  | completeEvt
  | readEvt
deriving DecidableEq, Repr

/-- One event step; `none` rejects events that cannot occur (frames after
`'end'`, a completion with nothing in flight). -/
def rstep (cap : Nat → Bool) (deser : α → Except String β)
    (s : RState α β) : REvent α → Option (RState α β)
  | .dataEvt frames =>
      if s.ended then none
      else some (frames.foldl (arriveOne cap) s)
  | .endEvt =>
      if s.ended then none
      else some (pushOrBuffer cap { s with ended := true } none)
  | .completeEvt =>
      match s.pending with
      | some fr => some (completeDeser cap deser s fr)
      | none => none
  | .readEvt => some (readEvent cap s)

/-- Run a list of events from a state. -/
def runSteps (cap : Nat → Bool) (deser : α → Except String β) :
    RState α β → List (REvent α) → Option (RState α β)
  | s, [] => some s
  | s, e :: rest =>
      match rstep cap deser s e with
      | some s1 => runSteps cap deser s1 rest
      | none => none

/-- The sequence committed for delivery to user code, in order: everything
pushed so far followed by the queued messages a later `_read` will push,
without the `null` terminator. -/
def deliveredSeq (s : RState α β) : List β :=
  (s.pushed ++ s.toPush).filterMap id

/-- Deserialize a list of frames in order, failing at the first error. -/
def deserAll (deser : α → Except String β) : List α → Except String (List β)
  | [] => .ok []
  | a :: rest =>
      match deser a with
      | .error e => .error e
      | .ok b =>
          match deserAll deser rest with
          | .error e => .error e
          | .ok bs => .ok (b :: bs)

/-- The inductive invariant of the readable pipeline: unless a
deserialization error was raised, the frames that arrived split into a
processed part `done` — whose deserializations are exactly the committed
output, in order — the at-most-one frame in flight, and the buffered
frames; the `null` end sentinel can only sit at the back of the buffer
after `'end'`; an idle pipeline has an empty buffer; and a pulling
readable has an empty queue. -/
def ReadInv (deser : α → Except String β) (s : RState α β) : Prop :=
  s.errored = true ∨
  ∃ done fs t,
    s.buffered = fs.map some ++ (if t = true then [(none : Option α)] else []) ∧
    (t = true → s.ended = true) ∧
    (s.pending = none → fs = []) ∧
    (s.canPush = true → s.toPush = []) ∧
    s.arrived = done ++ s.pending.toList ++ fs ∧
    deserAll deser done = Except.ok ((s.pushed ++ s.toPush).filterMap id)

/-- A concrete deserializer for exercising the pipeline. -/
def c2Deser (n : Nat) : Except String Nat := Except.ok (n + 1)

/-- A concrete interleaving: two frames in one `'data'` batch, their two
completions, a `_read` pull, `'end'`, and a final pull. -/
def c2Events : List (REvent Nat) :=
  [REvent.dataEvt [10, 20], REvent.completeEvt, REvent.completeEvt,
   REvent.readEvt, REvent.endEvt, REvent.readEvt]

/-- The state `c2Events` reaches from `rsInit`, computed by evaluation. -/
def c2Final : RState Nat Nat :=
  { canPush := true, pending := none, buffered := [], toPush := [],
    pushed := [some 11, some 21, none], paused := false, errored := false,
    pushCount := 3, ended := true, arrived := [10, 20] }

/-! ## Spec-side characterizations used by the claims -/

/-- Lookup without the `get` normalization step, for stating facts about
already-normalized keys. -/
def mdGetRaw (repr : MDRepr) (key : String) : List MDValue :=
  (repr.lookup key).getD []

/-- The longest error-free run of values for a key: `validate` is
stateless, so this is what the per-entry try/catch of `fromHttp2Headers`
lets through before the first throw. -/
def validRun (key : String) : List MDValue → List MDValue
  | [] => []
  | v :: rest =>
      match validateKV (normalizeKey key) v with
      | .ok () => v :: validRun key rest
      | .error _ => []

/-- One step of the amended-claim characterization: a non-reserved entry
spelling the target key contributes its longest valid run of transformed
values. -/
def specKeyStep (k : String) (acc : List MDValue) (kv : String × HVal) :
    List MDValue :=
  if strStartsWith kv.1 ":" then acc
  else if normalizeKey kv.1 = k then
    acc ++ validRun kv.1 (entryValues kv.1 kv.2)
  else acc

/-- Stated from the amended claim: the values the import gives a
normalized key are the concatenation, in enumeration order, over the
non-reserved entries spelling that key, of each entry's longest valid run
of transformed values. -/
def specKeyValues (headers : Headers) (k : String) : List MDValue :=
  (reorderForEnumeration headers).foldl (specKeyStep k) []

instance {e a : Type} [DecidableEq e] [DecidableEq a] :
    DecidableEq (Except e a) := fun x y =>
  match x, y with
  | .ok v, .ok w =>
      if h : v = w then .isTrue (by rw [h])
      else .isFalse fun hc => h (Except.ok.inj hc)
  | .ok _, .error _ => .isFalse fun hc => Except.noConfusion hc
  | .error _, .ok _ => .isFalse fun hc => Except.noConfusion hc
  | .error v, .error w =>
      if h : v = w then .isTrue (by rw [h])
      else .isFalse fun hc => h (Except.error.inj hc)

/-- A buffer value consists of bytes; text values carry no condition. -/
def valueBytesOk (v : MDValue) : Bool :=
  match v with
  | .bin bs => bs.all fun b => b < 256
  | .text _ => true

/-- A well-formed `Metadata`, as the `set`/`add` interface constructs it:
distinct keys, each legal, already normalized (keys are stored lower-cased
and the legal alphabet is fixed under lower-casing), not reserved,
nonempty value sequences, every value valid for its key, and buffer values
made of bytes. -/
def MetadataWF (m : MDRepr) : Prop :=
  (m.map Prod.fst).Nodup ∧
    ∀ kv ∈ m, legalKey kv.1 ∧ normalizeKey kv.1 = kv.1 ∧
      strStartsWith kv.1 ":" = false ∧ kv.2 ≠ [] ∧
      ∀ v ∈ kv.2, validateKV kv.1 v = .ok () ∧ valueBytesOk v = true

instance (m : MDRepr) : Decidable (MetadataWF m) := by
  unfold MetadataWF; infer_instance

/-- No key of the metadata is a canonical array index (such keys are
enumerated out of insertion order by JavaScript objects). -/
def NoArrayIndexKeys (m : MDRepr) : Prop :=
  ∀ kv ∈ m, isArrayIndexKey kv.1 = false

instance (m : MDRepr) : Decidable (NoArrayIndexKeys m) := by
  unfold NoArrayIndexKeys; infer_instance

end GrpcJs
namespace GrpcJs

/-! ## Helper lemmas: base64 round trip -/

theorem charOfSextet_mem (s : Nat) (h : s < 64) :
    isB64Char (charOfSextet s) = true := by
  revert h; revert s; decide

theorem sextetOfChar_charOfSextet (s : Nat) (h : s < 64) :
    sextetOfChar (charOfSextet s) = s := by
  revert h; revert s; decide

theorem isB64Char_eq_sign : isB64Char '=' = false := by decide

theorem b64decodeL_encodeL : ∀ l : List Nat, bytesWF l →
    b64decodeL (b64encodeL l) = l
  | [], _ => by simp [b64encodeL, b64decodeL, b64decodeSextets]
  | [a], h => by
      have ha : a < 256 := h a (by simp)
      have h1 : a / 4 < 64 := by omega
      have h2 : a % 4 * 16 < 64 := by omega
      simp [b64encodeL, b64decodeL, List.takeWhile,
        charOfSextet_mem _ h1, charOfSextet_mem _ h2,
        sextetOfChar_charOfSextet _ h1, sextetOfChar_charOfSextet _ h2,
        isB64Char_eq_sign, b64decodeSextets]
      omega
  | [a, b], h => by
      have ha : a < 256 := h a (by simp)
      have hb : b < 256 := h b (by simp)
      have h1 : a / 4 < 64 := by omega
      have h2 : a % 4 * 16 + b / 16 < 64 := by omega
      have h3 : b % 16 * 4 < 64 := by omega
      simp [b64encodeL, b64decodeL, List.takeWhile,
        charOfSextet_mem _ h1, charOfSextet_mem _ h2, charOfSextet_mem _ h3,
        sextetOfChar_charOfSextet _ h1, sextetOfChar_charOfSextet _ h2,
        sextetOfChar_charOfSextet _ h3,
        isB64Char_eq_sign, b64decodeSextets]
      constructor <;> omega
  | a :: b :: c :: rest, h => by
      have ha : a < 256 := h a (by simp)
      have hb : b < 256 := h b (by simp)
      have hc : c < 256 := h c (by simp)
      have h1 : a / 4 < 64 := by omega
      have h2 : a % 4 * 16 + b / 16 < 64 := by omega
      have h3 : b % 16 * 4 + c / 64 < 64 := by omega
      have h4 : c % 64 < 64 := by omega
      have ih := b64decodeL_encodeL rest (fun x hx => h x (by simp [hx]))
      simp only [b64decodeL] at ih
      simp only [b64encodeL, b64decodeL, List.takeWhile,
        charOfSextet_mem _ h1, charOfSextet_mem _ h2, charOfSextet_mem _ h3,
        charOfSextet_mem _ h4, List.map_cons, b64decodeSextets, ih,
        sextetOfChar_charOfSextet _ h1, sextetOfChar_charOfSextet _ h2,
        sextetOfChar_charOfSextet _ h3, sextetOfChar_charOfSextet _ h4,
        List.cons.injEq]
      refine ⟨by omega, by omega, by omega, trivial⟩

theorem b64_roundtrip (l : List Nat) (h : bytesWF l) :
    b64decode (b64encode l) = l := by
  simpa [b64encode, b64decode, String.toList] using b64decodeL_encodeL l h

end GrpcJs
namespace GrpcJs

/-- C1: with `maxSendMessageLength` set to `L`, serializing a response
longer than `L` fails with `RESOURCE_EXHAUSTED` and details
`"Sent message larger than max (<N> vs. <L>)"`, and an inbound frame whose
declared length exceeds `maxReceiveMessageLength` fails with
`RESOURCE_EXHAUSTED` and `"Received message larger than max (<N> vs. <L>)"`
(size enforcement modelled from the spec; `parseOptions` is from the
source). -/
theorem sizeLimits_fail_resource_exhausted
    (input : List (String × OptVal)) (opts : ParsedOptions)
    (sendL recvL : Int) (msg frame : List Nat)
    (hp : parseOptions input = .ok opts)
    (hs : opts.maxSendMessageLength = .int sendL)
    (hr : opts.maxReceiveMessageLength = .int recvL)
    (hm : (msg.length : Int) > sendL)
    (hf : (readUInt32BE frame 1 : Int) > recvL) :
    serializeMessageChecked opts msg =
      .error { code := Status.RESOURCE_EXHAUSTED,
               details := "Sent message larger than max (" ++
                 toString msg.length ++ " vs. " ++ toString sendL ++ ")" } ∧
    deserializeMessageChecked opts frame =
      .error { code := Status.RESOURCE_EXHAUSTED,
               details := "Received message larger than max (" ++
                 toString (readUInt32BE frame 1) ++ " vs. " ++
                 toString recvL ++ ")" } := by
  constructor
  · simp [serializeMessageChecked, exceedsLimit, hs, hm, optValText]
  · simp [deserializeMessageChecked, exceedsLimit, hr, hf, optValText]

/-- Witness for C1 at the test fixtures: limits of 1, an 8-byte message and
a frame declaring 8 bytes. -/
theorem sizeLimits_fail_resource_exhausted_witness :
    serializeMessageChecked
        { maxConcurrentStreams := .undef, maxFrameSize := .int 16384,
          keepaliveTimeMs := .int 7200000, keepaliveTimeoutMs := .int 20000,
          maxSendMessageLength := .int 1, maxReceiveMessageLength := .int 1 }
        [1, 2, 3, 4, 5, 6, 7, 8] =
      .error { code := Status.RESOURCE_EXHAUSTED,
               details := "Sent message larger than max (8 vs. 1)" } ∧
    deserializeMessageChecked
        { maxConcurrentStreams := .undef, maxFrameSize := .int 16384,
          keepaliveTimeMs := .int 7200000, keepaliveTimeoutMs := .int 20000,
          maxSendMessageLength := .int 1, maxReceiveMessageLength := .int 1 }
        [0, 0, 0, 0, 8] =
      .error { code := Status.RESOURCE_EXHAUSTED,
               details := "Received message larger than max (8 vs. 1)" } :=
  sizeLimits_fail_resource_exhausted
    [("grpc.max_send_message_length", .int 1),
     ("grpc.max_receive_message_length", .int 1)]
    _ 1 1 [1, 2, 3, 4, 5, 6, 7, 8] [0, 0, 0, 0, 8]
    (by decide) rfl rfl (by decide) (by decide)

/-- C3: the frame writer puts the compression flag at byte 0, but
`readMessage` tests byte 1 — the most significant length byte — so for any
compressor and any message whose compressed form is shorter than 2^24
bytes, the compressed flag is set on the wire yet the reader returns the
compressed payload undecompressed: the claimed round trip fails whenever
compression changes the bytes. -/
theorem readMessage_ignores_flag_byte
    (comp : List Nat → List Nat)
    (decomp : List Nat → Except String (List Nat))
    (M : List Nat) (hlen : (comp M).length < 16777216) :
    (writeMessage comp M true).getD 0 0 = 1 ∧
    readMessage decomp (writeMessage comp M true) = .ok (comp M) ∧
    (comp M ≠ M →
      readMessage decomp (writeMessage comp M true) ≠ .ok M) := by
  have hb : (comp M).length / 16777216 % 256 = 0 := by omega
  refine ⟨rfl, ?_, ?_⟩
  · simp [writeMessage, readMessage, be32, hb]
  · intro hne
    simp [writeMessage, readMessage, be32, hb]
    exact hne

/-- Witness for C3: a compressor that reverses its two-byte input; the
reader hands back the reversed bytes. -/
theorem readMessage_ignores_flag_byte_witness :
    (writeMessage List.reverse [0, 1] true).getD 0 0 = 1 ∧
    readMessage (fun l => .ok l.reverse)
        (writeMessage List.reverse [0, 1] true) = .ok [1, 0] ∧
    readMessage (fun l => .ok l.reverse)
        (writeMessage List.reverse [0, 1] true) ≠ .ok [0, 1] := by
  have h := readMessage_ignores_flag_byte List.reverse
    (fun l => .ok l.reverse) [0, 1] (by decide)
  exact ⟨h.1, h.2.1, h.2.2 (by decide)⟩

/-- C5: evaluated at a filter whose send and receive encodings are gzip and
a request advertising `grpc-encoding: deflate` with an accept list of just
gzip: the source's fallback branch installs the very encoding the peer
rejected (its own comment says it means to send uncompressed), so the send
encoding ends up deflate, not identity. -/
theorem receiveMetadata_fallback_not_identity :
    cfilterReceiveMetadata
        { send := "gzip", receive := "gzip",
          accepts := ["identity", "deflate", "gzip"] }
        [("grpc-encoding", [.text "deflate"]),
         ("grpc-accept-encoding", [.text "gzip"])] =
      .ok ({ send := "deflate", receive := "deflate", accepts := ["gzip"] },
           []) ∧
    "deflate" ≠ "identity" := by
  constructor
  · decide
  · decide

end GrpcJs
namespace GrpcJs

/-- C7: when the armed deadline timer fires on a live call, the call ends
with `DEADLINE_EXCEEDED` and details `"Deadline exceeded"`, the trailers
carry that status, the timer is cleared, the call is marked cancelled, and
exactly one `'cancelled'` event with reason `"deadline"` is emitted (the
wrapper listens with `once`, so the user observes it one-shot). -/
theorem deadline_fire_ends_call (s : ServerCall) (t : Int)
    (hc : s.cancelled = false) (hd : s.streamDestroyed = false)
    (harm : s.deadline = some t) (hmd : s.status.metadata = none) :
    (handleExpiredDeadlineCall s).status.code = Status.DEADLINE_EXCEEDED ∧
    (handleExpiredDeadlineCall s).status.details = "Deadline exceeded" ∧
    (handleExpiredDeadlineCall s).cancelled = true ∧
    (handleExpiredDeadlineCall s).deadline = none ∧
    (handleExpiredDeadlineCall s).events =
      s.events ++ [("cancelled", "deadline")] ∧
    (handleExpiredDeadlineCall s).streamEnded = true ∧
    (handleExpiredDeadlineCall s).sentTrailers =
      some [("grpc-status", .one "4"),
            ("grpc-message", .one "Deadline%20exceeded")] := by
  have h4 : toString Status.DEADLINE_EXCEEDED = "4" := by decide
  have he : encodeURIStr "Deadline exceeded" = "Deadline%20exceeded" := by
    decide
  by_cases hms : s.metadataSent = true <;>
    simp [handleExpiredDeadlineCall, sendError, endCall, sendMetadataCall,
      trailersToSend, hc, hd, hmd, hms, h4, he]

/-- Witness for C7 at a freshly constructed call with a 100 ms deadline. -/
theorem deadline_fire_ends_call_witness :
    (handleExpiredDeadlineCall
        { serverCallInit with deadline := some 100 }).status.code =
      Status.DEADLINE_EXCEEDED ∧
    (handleExpiredDeadlineCall
        { serverCallInit with deadline := some 100 }).status.details =
      "Deadline exceeded" ∧
    (handleExpiredDeadlineCall
        { serverCallInit with deadline := some 100 }).cancelled = true ∧
    (handleExpiredDeadlineCall
        { serverCallInit with deadline := some 100 }).deadline = none ∧
    (handleExpiredDeadlineCall
        { serverCallInit with deadline := some 100 }).events =
      [("cancelled", "deadline")] ∧
    (handleExpiredDeadlineCall
        { serverCallInit with deadline := some 100 }).streamEnded = true ∧
    (handleExpiredDeadlineCall
        { serverCallInit with deadline := some 100 }).sentTrailers =
      some [("grpc-status", .one "4"),
            ("grpc-message", .one "Deadline%20exceeded")] :=
  deadline_fire_ends_call { serverCallInit with deadline := some 100 } 100
    rfl rfl rfl rfl

/-- C9 counterexample: a peer RST_STREAM(CANCEL) on a call with an armed
deadline timer sets the cancelled flag but leaves the timer armed — the
claimed clearing does not happen on this path. -/
theorem rstCancel_leaves_deadline_armed :
    (onStreamCloseCall { serverCallInit with deadline := some 5000 }
        NGHTTP2_CANCEL).cancelled = true ∧
    (onStreamCloseCall { serverCallInit with deadline := some 5000 }
        NGHTTP2_CANCEL).deadline = some 5000 ∧
    (some (5000 : Int) ≠ (none : Option Int)) := by
  refine ⟨rfl, rfl, by simp⟩

/-- C9 amended: once the cancelled flag is set, `write`, `end` and
`sendMetadata` are no-ops that leave the call state (and hence the stream)
untouched; the deadline timer is cleared when the deadline itself fires,
but cancellation through the stream-close path (peer RST or forced
shutdown) leaves any armed timer in place. -/
theorem cancelled_call_noops (s1 s2 s3 : ServerCall) (chunk : List Nat)
    (payload : Option (List Nat)) (custom : Option MDRepr) (rst : Nat)
    (h1 : s1.cancelled = true)
    (h3c : s3.cancelled = false) (h3d : s3.streamDestroyed = false) :
    writeCall s1 chunk = s1 ∧
    endCall s1 payload = s1 ∧
    sendMetadataCall s1 custom = s1 ∧
    (onStreamCloseCall s2 rst).deadline = s2.deadline ∧
    (handleExpiredDeadlineCall s3).deadline = none := by
  refine ⟨?_, ?_, ?_, ?_, ?_⟩
  · simp [writeCall, h1]
  · simp [endCall, h1]
  · simp [sendMetadataCall, h1]
  · simp only [onStreamCloseCall]
    split <;> rfl
  · by_cases hms : s3.metadataSent = true <;>
      simp [handleExpiredDeadlineCall, sendError, endCall, sendMetadataCall,
        h3c, h3d, hms]

/-- Witness for C9 at a cancelled call, a closing stream with an armed
timer, and a live call whose deadline fires. -/
theorem cancelled_call_noops_witness :
    writeCall { serverCallInit with cancelled := true } [1] =
      { serverCallInit with cancelled := true } ∧
    endCall { serverCallInit with cancelled := true } none =
      { serverCallInit with cancelled := true } ∧
    sendMetadataCall { serverCallInit with cancelled := true } none =
      { serverCallInit with cancelled := true } ∧
    (onStreamCloseCall { serverCallInit with deadline := some 7 }
        NGHTTP2_CANCEL).deadline =
      ({ serverCallInit with deadline := some 7 } : ServerCall).deadline ∧
    (handleExpiredDeadlineCall serverCallInit).deadline = none :=
  cancelled_call_noops { serverCallInit with cancelled := true }
    { serverCallInit with deadline := some 7 } serverCallInit
    [1] none none NGHTTP2_CANCEL rfl rfl rfl

/-- C8 counterexample: the deadline regex is unanchored, so
`"x1H"` — which does not have the shape `\d{1,8}[HMSmun]` — is accepted
and arms a one-hour timer instead of failing with `OUT_OF_RANGE`; and for
`"99999999H"`, which does have that shape, the `| 0` conversion wraps the
product to a 32-bit integer, so the armed delay is not the unit-scaled
value the claim states. -/
theorem unanchored_deadline_counterexample :
    specDeadlineSyntax "x1H" = false ∧
    receiveMetadataCall serverCallInit [("grpc-timeout", .one "x1H")] =
      .ok ({ serverCallInit with deadline := some 3600000 }, some []) ∧
    specDeadlineSyntax "99999999H" = true ∧
    receiveMetadataCall serverCallInit [("grpc-timeout", .one "99999999H")] =
      .ok ({ serverCallInit with deadline := some 132616576 }, some []) ∧
    ((132616576 : Int) ≠ 99999999 * 3600000) := by
  refine ⟨by decide, by decide, by decide, by decide, by decide⟩

end GrpcJs
namespace GrpcJs

theorem fromHttp2Headers_single_timeout (t : String)
    (hl : legalTextValue t = true) :
    fromHttp2Headers [("grpc-timeout", HVal.one t)] =
      ([("grpc-timeout", [MDValue.text t])], 0) := by
  have h1 : strStartsWith "grpc-timeout" ":" = false := by decide
  have h2 : isArrayIndexKey "grpc-timeout" = false := by decide
  have h3 : isBinaryKey "grpc-timeout" = false := by decide
  have h4 : isCustomMetadata "grpc-timeout" = false := by decide
  have h5 : normalizeKey "grpc-timeout" = "grpc-timeout" := by decide
  have h6 : legalKey "grpc-timeout" = true := by decide
  simp [fromHttp2Headers, reorderForEnumeration, sortByNumericKey,
    importEntry, h1, h2, h3, h4, entryValues, addEntryValues, mdAdd, h5, h6,
    validateKV, hl]

end GrpcJs
namespace GrpcJs

theorem cfilter_pass_single_timeout (t : String) :
    cfilterReceiveMetadata cfilterInit [("grpc-timeout", [MDValue.text t])] =
      .ok (cfilterInit, [("grpc-timeout", [MDValue.text t])]) := by
  have h1 : normalizeKey "grpc-encoding" = "grpc-encoding" := by decide
  have h2 : normalizeKey "grpc-accept-encoding" = "grpc-accept-encoding" := by
    decide
  have h3 : ("grpc-timeout" == "grpc-encoding") = false := by decide
  have h4 : ("grpc-timeout" == "grpc-accept-encoding") = false := by decide
  simp [cfilterReceiveMetadata, mdGet, mdRemove, cfilterInit, h1, h2, h3, h4,
    List.lookup, supportedCompression]
  rfl

end GrpcJs
namespace GrpcJs

/-- C8 amended: `receiveMetadata` fails the call with `OUT_OF_RANGE` and
details `"Invalid deadline"` exactly when the header value contains no
substring matching the unanchored `(\d{1,8})\s*([HMSmun])`; for the
leftmost such match it arms the timer with the digit value times the unit
factor, truncated to milliseconds and wrapped by `| 0` to a 32-bit signed
integer. -/
theorem grpc_timeout_matching (t : String) (hl : legalTextValue t = true) :
    (deadlineMatchStr t = none →
      ∃ c, receiveMetadataCall serverCallInit [("grpc-timeout", .one t)] =
          .ok (c, none) ∧
        c.status.code = Status.OUT_OF_RANGE ∧
        c.status.details = "Invalid deadline" ∧
        c.streamEnded = true) ∧
    (∀ digits unit, deadlineMatchStr t = some (digits, unit) →
      receiveMetadataCall serverCallInit [("grpc-timeout", .one t)] =
        .ok ({ serverCallInit with
                deadline := some (toInt32 (timeoutMs digits unit)) },
             some [])) := by
  have h5 : normalizeKey "grpc-timeout" = "grpc-timeout" := by decide
  constructor
  · intro hnone
    refine ⟨sendError serverCallInit
      { message := some "Invalid deadline" } Status.OUT_OF_RANGE, ?_, ?_, ?_, ?_⟩
    · simp only [receiveMetadataCall, fromHttp2Headers_single_timeout t hl]
      rw [show serverCallInit.compression = cfilterInit from rfl,
        cfilter_pass_single_timeout t]
      simp [bind, Except.bind, List.lookup, mdGet, mdRemove, mdValueText,
        h5, hnone]
      rfl
    · simp [sendError, endCall, sendMetadataCall, serverCallInit]
    · simp [sendError, endCall, sendMetadataCall, serverCallInit]
    · simp [sendError, endCall, sendMetadataCall, serverCallInit]
  · intro digits unit hsome
    simp only [receiveMetadataCall, fromHttp2Headers_single_timeout t hl]
    rw [show serverCallInit.compression = cfilterInit from rfl,
      cfilter_pass_single_timeout t]
    simp [bind, Except.bind, List.lookup, mdGet, mdRemove, mdValueText,
      h5, hsome]

end GrpcJs
namespace GrpcJs

/-- Witness for C8 at the test fixtures: `"Infinity"` has no match and
fails with `OUT_OF_RANGE`; `"100m"` matches and arms a 100 ms timer. -/
theorem grpc_timeout_matching_witness :
    ((deadlineMatchStr "Infinity" = none →
      ∃ c, receiveMetadataCall serverCallInit
            [("grpc-timeout", .one "Infinity")] = .ok (c, none) ∧
        c.status.code = Status.OUT_OF_RANGE ∧
        c.status.details = "Invalid deadline" ∧
        c.streamEnded = true) ∧
     (∀ digits unit, deadlineMatchStr "Infinity" = some (digits, unit) →
      receiveMetadataCall serverCallInit
          [("grpc-timeout", .one "Infinity")] =
        .ok ({ serverCallInit with
                deadline := some (toInt32 (timeoutMs digits unit)) },
             some []))) ∧
    ((deadlineMatchStr "100m" = none →
      ∃ c, receiveMetadataCall serverCallInit
            [("grpc-timeout", .one "100m")] = .ok (c, none) ∧
        c.status.code = Status.OUT_OF_RANGE ∧
        c.status.details = "Invalid deadline" ∧
        c.streamEnded = true) ∧
     (∀ digits unit, deadlineMatchStr "100m" = some (digits, unit) →
      receiveMetadataCall serverCallInit
          [("grpc-timeout", .one "100m")] =
        .ok ({ serverCallInit with
                deadline := some (toInt32 (timeoutMs digits unit)) },
             some []))) :=
  ⟨grpc_timeout_matching "Infinity" (by decide),
   grpc_timeout_matching "100m" (by decide)⟩

/-- C6 counterexample: registering a service with method key `Div`, path
`/math.Math/Div` and no implementation installs a default handler whose
details name the method key, not the registered path. -/
theorem default_handler_uses_name_not_path :
    addService [] []
        [("Div", { path := "/math.Math/Div", requestStream := false,
                   responseStream := false, originalName := some "div" })] =
      .ok [("/math.Math/Div",
            { func := .defaultHandler
                { code := Status.UNIMPLEMENTED,
                  details := "The server does not implement the method Div" },
              type := 0, path := "/math.Math/Div" })] ∧
    ("The server does not implement the method Div" ≠
      "The server does not implement the method /math.Math/Div") := by
  constructor
  · rfl
  · decide

/-- C6 amended: an incoming `:path` with no registered handler is answered
with `UNIMPLEMENTED` and details naming that path; a registered method
without an implementation gets a synthetic default handler that responds
`UNIMPLEMENTED` with details naming the method's key in the service
definition (not its registered path). -/
theorem unimplemented_responses (handlers hs : HandlerMap)
    (call : ServerCall) (path : String)
    (impl : List String) (name : String) (attrs : MethodAttrs)
    (hmiss : handlers.lookup path = none)
    (hc : call.cancelled = false) (hd : call.streamDestroyed = false)
    (hni : impl.contains name = false)
    (hno : ∀ o, attrs.originalName = some o → impl.contains o = false)
    (hfresh : hs.lookup attrs.path = none) :
    (∃ c, dispatchPath handlers call path = .inl c ∧
      c.status.code = Status.UNIMPLEMENTED ∧
      c.status.details = "The server does not implement the method " ++ path ∧
      c.streamEnded = true) ∧
    (∃ entry, addServiceMethod impl hs name attrs =
        .ok (hs ++ [(attrs.path, entry)]) ∧
      entry.func = .defaultHandler
        { code := Status.UNIMPLEMENTED,
          details := "The server does not implement the method " ++ name } ∧
      entry.path = attrs.path ∧ entry.type = methodTypeOf attrs) := by
  constructor
  · refine ⟨sendError call
      { message := none,
        code := some (getUnimplementedStatusResponse path).code,
        details := some (getUnimplementedStatusResponse path).details,
        metadata := none }, ?_, ?_, ?_, ?_⟩
    · simp [dispatchPath, hmiss]
    · by_cases hms : call.metadataSent = true <;>
        simp [sendError, endCall, sendMetadataCall,
          getUnimplementedStatusResponse, hc, hd, hms]
    · by_cases hms : call.metadataSent = true <;>
        simp [sendError, endCall, sendMetadataCall,
          getUnimplementedStatusResponse, hc, hd, hms]
    · by_cases hms : call.metadataSent = true <;>
        simp [sendError, endCall, sendMetadataCall,
          getUnimplementedStatusResponse, hc, hd, hms]
  · have htype : methodTypeOf attrs ≤ 3 := by
      unfold methodTypeOf
      split <;> split <;> omega
    refine ⟨⟨HandlerFunc.defaultHandler
      ⟨Status.UNIMPLEMENTED,
       "The server does not implement the method " ++ name⟩,
      methodTypeOf attrs, attrs.path⟩, ?_, rfl, rfl, rfl⟩
    have hni2 : ¬ name ∈ impl := by simpa using hni
    cases ho : attrs.originalName with
    | none =>
        simp [addServiceMethod, hni2, ho, getDefaultHandler, htype,
          getUnimplementedStatusResponse, registerHandler, hfresh, bind,
          Except.bind, pure, Except.pure]
    | some o =>
        have ho2 : ¬ o ∈ impl := by simpa using hno o ho
        simp [addServiceMethod, hni2, ho, ho2, getDefaultHandler, htype,
          getUnimplementedStatusResponse, registerHandler, hfresh, bind,
          Except.bind, pure, Except.pure]

/-- Witness for C6: an empty registry missing `/EchoService/Echo`, and the
`Div` method registered without an implementation. -/
theorem unimplemented_responses_witness :
    (∃ c, dispatchPath [] serverCallInit "/EchoService/Echo" = .inl c ∧
      c.status.code = Status.UNIMPLEMENTED ∧
      c.status.details =
        "The server does not implement the method " ++ "/EchoService/Echo" ∧
      c.streamEnded = true) ∧
    (∃ entry, addServiceMethod [] [] "Div"
        { path := "/math.Math/Div", requestStream := false,
          responseStream := false, originalName := some "div" } =
        .ok ([] ++ [("/math.Math/Div", entry)]) ∧
      entry.func = .defaultHandler
        { code := Status.UNIMPLEMENTED,
          details := "The server does not implement the method " ++ "Div" } ∧
      entry.path = "/math.Math/Div" ∧
      entry.type = methodTypeOf
        { path := "/math.Math/Div", requestStream := false,
          responseStream := false, originalName := some "div" }) :=
  unimplemented_responses [] [] serverCallInit "/EchoService/Echo" [] "Div"
    { path := "/math.Math/Div", requestStream := false,
      responseStream := false, originalName := some "div" }
    rfl rfl rfl rfl (fun o ho => by simp at ho; rw [← ho]; rfl) rfl

end GrpcJs
namespace GrpcJs

theorem mdGetRaw_append_of_none {k : String} {l1 l2 : MDRepr}
    (h : l1.lookup k = none) : mdGetRaw (l1 ++ l2) k = mdGetRaw l2 k := by
  induction l1 with
  | nil => rfl
  | cons kv rest ih =>
      obtain ⟨k1, vs1⟩ := kv
      by_cases hk : k = k1
      · simp [List.lookup_cons, hk] at h
      · simp only [List.lookup_cons,
          show (k == k1) = false from by simp [hk]] at h
        simp only [List.cons_append, mdGetRaw, List.lookup_cons,
          show (k == k1) = false from by simp [hk]]
        exact ih h

theorem mdGetRaw_append_of_some {k : String} {vs : List MDValue}
    {l1 l2 : MDRepr} (h : l1.lookup k = some vs) :
    mdGetRaw (l1 ++ l2) k = vs := by
  induction l1 with
  | nil => simp at h
  | cons kv rest ih =>
      obtain ⟨k1, vs1⟩ := kv
      by_cases hk : k = k1
      · simp only [List.lookup_cons,
          show (k == k1) = true from by simp [hk]] at h
        simp only [List.cons_append, mdGetRaw, List.lookup_cons,
          show (k == k1) = true from by simp [hk]]
        simp_all
      · simp only [List.lookup_cons,
          show (k == k1) = false from by simp [hk]] at h
        simp only [List.cons_append, mdGetRaw, List.lookup_cons,
          show (k == k1) = false from by simp [hk]]
        exact ih h

theorem mdGetRaw_mdAppendAt_ne {md : MDRepr} {key k : String} {v : MDValue}
    (hne : k ≠ key) : mdGetRaw (mdAppendAt md key v) k = mdGetRaw md k := by
  induction md with
  | nil => rfl
  | cons kv rest ih =>
      obtain ⟨k1, vs1⟩ := kv
      simp only [mdAppendAt, List.map_cons] at ih ⊢
      by_cases hk : k1 = key
      · simp only [if_pos hk, mdGetRaw, List.lookup_cons,
          show (k == k1) = false from by simp [hk, hne]]
        exact ih
      · simp only [if_neg hk]
        by_cases hk2 : k = k1
        · simp [mdGetRaw, List.lookup_cons, hk2]
        · simp only [mdGetRaw, List.lookup_cons,
            show (k == k1) = false from by simp [hk2]]
          exact ih

theorem mdGetRaw_mdAppendAt_eq {md : MDRepr} {key : String} {v : MDValue}
    {vs : List MDValue} (h : md.lookup key = some vs) :
    mdGetRaw (mdAppendAt md key v) key = vs ++ [v] := by
  induction md with
  | nil => simp at h
  | cons kv rest ih =>
      obtain ⟨k1, vs1⟩ := kv
      simp only [mdAppendAt, List.map_cons] at ih ⊢
      by_cases hk : k1 = key
      · simp only [List.lookup_cons,
          show (key == k1) = true from by simp [hk]] at h
        simp only [if_pos hk, mdGetRaw, List.lookup_cons,
          show (key == k1) = true from by simp [hk]]
        simp_all
      · simp only [List.lookup_cons,
          show (key == k1) = false from by simp [Ne.symm hk]] at h
        simp only [if_neg hk, mdGetRaw, List.lookup_cons,
          show (key == k1) = false from by simp [Ne.symm hk]]
        exact ih h

end GrpcJs
namespace GrpcJs

theorem mdAdd_ok_getRaw {md md' : MDRepr} {key : String} {v : MDValue}
    (h : mdAdd md key v = .ok md') :
    (∀ k, k ≠ normalizeKey key → mdGetRaw md' k = mdGetRaw md k) ∧
      mdGetRaw md' (normalizeKey key) =
        mdGetRaw md (normalizeKey key) ++ [v] := by
  unfold mdAdd at h
  cases hv : validateKV (normalizeKey key) v with
  | error e => rw [hv] at h; exact absurd h (by simp)
  | ok u =>
      rw [hv] at h
      cases hlk : md.lookup (normalizeKey key) with
      | some vs =>
          rw [hlk] at h
          simp only [Option.isSome_some, if_pos] at h
          cases h
          refine ⟨fun k hk => mdGetRaw_mdAppendAt_ne hk, ?_⟩
          rw [mdGetRaw_mdAppendAt_eq hlk]
          simp [mdGetRaw, hlk]
      | none =>
          rw [hlk] at h
          simp only [Option.isSome_none, Bool.false_eq_true, if_false] at h
          cases h
          constructor
          · intro k hk
            cases hl2 : md.lookup k with
            | none =>
                rw [mdGetRaw_append_of_none hl2]
                simp [mdGetRaw, List.lookup_cons, hl2,
                  show (k == normalizeKey key) = false from by simp [hk]]
            | some vs =>
                rw [mdGetRaw_append_of_some hl2]
                simp [mdGetRaw, hl2]
          · rw [mdGetRaw_append_of_none hlk]
            simp [mdGetRaw, List.lookup_cons, hlk]

theorem mdAdd_error_of_invalid {md : MDRepr} {key : String} {v : MDValue}
    {e : String} (hv : validateKV (normalizeKey key) v = .error e) :
    mdAdd md key v = .error e := by
  unfold mdAdd
  rw [hv]

theorem mdAdd_ok_of_valid {md : MDRepr} {key : String} {v : MDValue}
    {u : Unit} (hv : validateKV (normalizeKey key) v = .ok u) :
    ∃ md', mdAdd md key v = .ok md' := by
  unfold mdAdd
  rw [hv]
  cases hlk : (md.lookup (normalizeKey key)).isSome <;> simp [hlk]

theorem addEntryValues_getRaw :
    ∀ (vs : List MDValue) (md : MDRepr) (key : String),
      (∀ k, k ≠ normalizeKey key →
        mdGetRaw (addEntryValues md key vs).1 k = mdGetRaw md k) ∧
      mdGetRaw (addEntryValues md key vs).1 (normalizeKey key) =
        mdGetRaw md (normalizeKey key) ++ validRun key vs
  | [], md, key => by simp [addEntryValues, validRun]
  | v :: rest, md, key => by
      cases hv : validateKV (normalizeKey key) v with
      | error e =>
          simp only [addEntryValues, mdAdd_error_of_invalid hv, validRun, hv]
          simp
      | ok u =>
          obtain ⟨md', hmd'⟩ := @mdAdd_ok_of_valid md key v u hv
          have hparts := mdAdd_ok_getRaw hmd'
          have ih := addEntryValues_getRaw rest md' key
          simp only [addEntryValues, hmd']
          constructor
          · intro k hk
            rw [ih.1 k hk, hparts.1 k hk]
          · rw [ih.2, hparts.2, validRun, hv]
            simp

end GrpcJs
namespace GrpcJs

theorem importEntry_getRaw (acc : MDRepr × Nat) (kv : String × HVal)
    (k : String) :
    mdGetRaw (importEntry acc kv).1 k =
      mdGetRaw acc.1 k ++ specKeyStep k [] kv := by
  unfold importEntry specKeyStep
  by_cases hres : strStartsWith kv.1 ":" = true
  · simp [hres]
  · simp only [hres, Bool.false_eq_true, if_false]
    by_cases hkey : normalizeKey kv.1 = k
    · rw [if_pos hkey]
      have h := (addEntryValues_getRaw (entryValues kv.1 kv.2) acc.1 kv.1).2
      rw [hkey] at h
      simpa using h
    · rw [if_neg hkey]
      have h := (addEntryValues_getRaw (entryValues kv.1 kv.2) acc.1 kv.1).1
        k (fun he => hkey he.symm)
      simpa using h

theorem specKeyStep_shift (k : String) (kv : String × HVal)
    (acc : List MDValue) :
    specKeyStep k acc kv = acc ++ specKeyStep k [] kv := by
  unfold specKeyStep
  by_cases h1 : strStartsWith kv.1 ":" = true
  · simp [h1]
  · by_cases h2 : normalizeKey kv.1 = k <;> simp [h1, h2]

theorem foldl_specKeyStep_shift (k : String) :
    ∀ (l : List (String × HVal)) (x : List MDValue),
      l.foldl (specKeyStep k) x = x ++ l.foldl (specKeyStep k) []
  | [], x => by simp
  | kv :: rest, x => by
      simp only [List.foldl_cons]
      rw [foldl_specKeyStep_shift k rest (specKeyStep k x kv),
        specKeyStep_shift k kv x,
        foldl_specKeyStep_shift k rest (specKeyStep k [] kv),
        List.append_assoc]

theorem foldl_importEntry_getRaw :
    ∀ (hs : List (String × HVal)) (acc : MDRepr × Nat) (k : String),
      mdGetRaw (hs.foldl importEntry acc).1 k =
        mdGetRaw acc.1 k ++ hs.foldl (specKeyStep k) []
  | [], acc, k => by simp
  | kv :: rest, acc, k => by
      simp only [List.foldl_cons]
      rw [foldl_importEntry_getRaw rest (importEntry acc kv) k,
        importEntry_getRaw acc kv k,
        foldl_specKeyStep_shift k rest (specKeyStep k [] kv),
        List.append_assoc]

/-- C10 amended: `fromHttp2Headers` always returns a Metadata (per-entry
throws are caught and logged); and for every target key, the imported
value sequence is the concatenation, in the object's enumeration order
over the non-reserved (no leading `:`) entries spelling that key, of each
entry's longest valid run of transformed values — so an invalid key or
value is logged and drops only the remaining values of its own entry
(values of the entry already added stay, as do all other entries). -/
theorem fromHttp2Headers_per_key (headers : Headers) (k : String) :
    mdGetRaw (fromHttp2Headers headers).1 k = specKeyValues headers k := by
  unfold fromHttp2Headers specKeyValues
  rw [foldl_importEntry_getRaw]
  rfl

/-- C10 counterexample: with the single header entry
`a: ["good", "bad\x01", "also-good"]` the invalid second value aborts the
entry, so the valid third value is dropped as well — refuting "all
remaining valid entries are still imported" — while one error is logged
and the import still returns. -/
theorem invalid_value_drops_valid_rest :
    fromHttp2Headers [("a", HVal.many ["good", "bad\x01", "also-good"])] =
      ([("a", [MDValue.text "good"])], 1) ∧
    mdGet (fromHttp2Headers
        [("a", HVal.many ["good", "bad\x01", "also-good"])]).1 "a" ≠
      [MDValue.text "good", MDValue.text "also-good"] := by
  constructor
  · rfl
  · decide

end GrpcJs
namespace GrpcJs

/-! ## Helper lemmas: the metadata round trip -/

theorem reorder_id_of_no_index {hs : Headers}
    (h : ∀ kv ∈ hs, isArrayIndexKey kv.1 = false) :
    reorderForEnumeration hs = hs := by
  unfold reorderForEnumeration sortByNumericKey
  rw [List.filter_eq_nil_iff.mpr (by intro kv hkv; simp [h kv hkv]),
    List.filter_eq_self.mpr (by intro kv hkv; simp [h kv hkv])]
  rfl

theorem bytesWF_of_all {bs : List Nat} (h : (bs.all fun b => b < 256) = true) :
    bytesWF bs := by
  intro b hb
  have := List.all_eq_true.mp h b hb
  simpa using this

theorem map_decode_encode (k : String) :
    ∀ vs : List MDValue,
      (∀ v ∈ vs, validateKV k v = .ok () ∧ valueBytesOk v = true) →
      isBinaryKey k = true →
      vs.map (fun v => MDValue.bin (b64decode (mdValueToHeader v))) = vs
  | [], _, _ => rfl
  | v :: rest, hv, hbk => by
      have hvv := hv v (by simp)
      cases v with
      | text s =>
          exfalso
          have := hvv.1
          simp [validateKV, hbk] at this
          split at this <;> simp_all
      | bin bs =>
          simp only [List.map_cons]
          congr 1
          · show MDValue.bin (b64decode (b64encode bs)) = MDValue.bin bs
            rw [b64_roundtrip bs
              (bytesWF_of_all (by simpa [valueBytesOk] using hvv.2))]
          · exact map_decode_encode k rest
              (fun w hw => hv w (by simp [hw])) hbk

theorem map_text_encode (k : String) :
    ∀ vs : List MDValue,
      (∀ v ∈ vs, validateKV k v = .ok () ∧ valueBytesOk v = true) →
      isBinaryKey k = false →
      vs.map (fun v => MDValue.text (mdValueToHeader v)) = vs
  | [], _, _ => rfl
  | v :: rest, hv, hbk => by
      have hvv := hv v (by simp)
      cases v with
      | bin bs =>
          exfalso
          have := hvv.1
          simp [validateKV, hbk] at this
          split at this <;> simp_all
      | text s =>
          simp only [List.map_cons]
          congr 1
          exact map_text_encode k rest (fun w hw => hv w (by simp [hw])) hbk

theorem entryValues_encode (k : String) (vs : List MDValue)
    (hv : ∀ v ∈ vs, validateKV k v = .ok () ∧ valueBytesOk v = true) :
    entryValues k (HVal.many (vs.map mdValueToHeader)) = vs := by
  unfold entryValues
  cases hbk : isBinaryKey k with
  | true =>
      simp only [if_true, List.map_map]
      exact map_decode_encode k vs hv hbk
  | false =>
      simp only [Bool.false_eq_true, if_false, List.map_map]
      exact map_text_encode k vs hv hbk

end GrpcJs
namespace GrpcJs

theorem lookup_append_of_none {k : String} {l1 l2 : MDRepr}
    (h : l1.lookup k = none) : (l1 ++ l2).lookup k = l2.lookup k := by
  induction l1 with
  | nil => rfl
  | cons kv rest ih =>
      obtain ⟨k1, vs1⟩ := kv
      by_cases hk : k = k1
      · simp [List.lookup_cons, hk] at h
      · simp only [List.lookup_cons,
          show (k == k1) = false from by simp [hk]] at h
        simp only [List.cons_append, List.lookup_cons,
          show (k == k1) = false from by simp [hk]]
        exact ih h

theorem lookup_none_entries {k : String} {l : MDRepr}
    (h : l.lookup k = none) : ∀ kv ∈ l, kv.1 ≠ k := by
  induction l with
  | nil => simp
  | cons kv rest ih =>
      obtain ⟨k1, vs1⟩ := kv
      intro kv2 hkv2
      by_cases hk : k = k1
      · simp [List.lookup_cons, hk] at h
      · simp only [List.lookup_cons,
          show (k == k1) = false from by simp [hk]] at h
        rcases List.mem_cons.mp hkv2 with h2 | h2
        · rw [h2]
          exact fun he => hk he.symm
        · exact ih h kv2 h2

theorem mdAppendAt_absent {l : MDRepr} {k : String} {v : MDValue}
    (h : ∀ kv ∈ l, kv.1 ≠ k) : mdAppendAt l k v = l := by
  induction l with
  | nil => rfl
  | cons kv rest ih =>
      simp only [mdAppendAt, List.map_cons] at ih ⊢
      rw [if_neg (h kv (by simp)), ih (fun kv2 h2 => h kv2 (by simp [h2]))]

theorem addEntryValues_present_tail :
    ∀ (vs partialv : List MDValue) (md : MDRepr) (k : String),
      normalizeKey k = k →
      (∀ v ∈ vs, validateKV k v = .ok ()) →
      md.lookup k = none →
      addEntryValues (md ++ [(k, partialv)]) k vs =
        (md ++ [(k, partialv ++ vs)], false)
  | [], partialv, md, k => by
      intro _ _ _
      simp [addEntryValues]
  | v :: rest, partialv, md, k => by
      intro hnorm hv hfresh
      have hval : validateKV (normalizeKey k) v = .ok () := by
        rw [hnorm]; exact hv v (by simp)
      have hlk : (md ++ [(k, partialv)]).lookup (normalizeKey k) =
          some partialv := by
        rw [hnorm, lookup_append_of_none hfresh]
        simp [List.lookup_cons]
      have happ : mdAppendAt (md ++ [(k, partialv)]) (normalizeKey k) v =
          md ++ [(k, partialv ++ [v])] := by
        rw [hnorm]
        unfold mdAppendAt
        rw [List.map_append,
          show List.map _ md = md from
            mdAppendAt_absent (lookup_none_entries hfresh)]
        simp [mdAppendAt]
      simp only [addEntryValues, mdAdd, hval, hlk, Option.isSome_some,
        if_pos, happ]
      rw [addEntryValues_present_tail rest (partialv ++ [v]) md k hnorm
        (fun w hw => hv w (by simp [hw])) hfresh]
      simp

theorem addEntryValues_fresh (v : MDValue) (rest : List MDValue)
    (md : MDRepr) (k : String) (hnorm : normalizeKey k = k)
    (hv : ∀ w ∈ v :: rest, validateKV k w = .ok ())
    (hfresh : md.lookup k = none) :
    addEntryValues md k (v :: rest) = (md ++ [(k, v :: rest)], false) := by
  have hval2 : validateKV k v = .ok () := hv v (by simp)
  have hlk2 : (md.lookup k).isSome = false := by rw [hfresh]; rfl
  simp only [addEntryValues, mdAdd, hnorm, hval2, hlk2, Bool.false_eq_true,
    if_false]
  rw [addEntryValues_present_tail rest [v] md k hnorm
    (fun w hw => hv w (by simp [hw])) hfresh]
  simp

end GrpcJs
namespace GrpcJs

theorem foldl_import_encode :
    ∀ (m : MDRepr) (acc : MDRepr × Nat),
      MetadataWF m → (∀ kv ∈ m, acc.1.lookup kv.1 = none) →
      (toHttp2Headers m).foldl importEntry acc = (acc.1 ++ m, acc.2)
  | [], acc => by
      intro _ _
      simp [toHttp2Headers]
  | (k, vs) :: rest, acc => by
      intro hwf hdisj
      obtain ⟨hnodup, hent⟩ := hwf
      obtain ⟨hleg, hnorm, hres, hne, hvals⟩ := hent (k, vs) (by simp)
      have hstep : importEntry acc (k, HVal.many (vs.map mdValueToHeader)) =
          (acc.1 ++ [(k, vs)], acc.2) := by
        unfold importEntry
        rw [if_neg (by simp [hres])]
        rw [entryValues_encode k vs (fun v hv => hvals v hv)]
        cases vs with
        | nil => exact absurd rfl hne
        | cons v rest2 =>
            rw [addEntryValues_fresh v rest2 acc.1 k hnorm
              (fun w hw => (hvals w hw).1) (hdisj (k, v :: rest2) (by simp))]
            simp
      simp only [toHttp2Headers, List.map_cons, List.foldl_cons]
      rw [hstep]
      have hwfrest : MetadataWF rest :=
        ⟨(List.nodup_cons.mp hnodup).2,
         fun kv hkv => hent kv (List.mem_cons_of_mem _ hkv)⟩
      have hdisj2 : ∀ kv ∈ rest, (acc.1 ++ [(k, vs)]).lookup kv.1 = none := by
        intro kv hkv
        rw [lookup_append_of_none (hdisj kv (List.mem_cons_of_mem _ hkv))]
        have hkne : kv.1 ≠ k := by
          intro he
          apply (List.nodup_cons.mp hnodup).1
          rw [← he]
          exact List.mem_map.mpr ⟨kv, hkv, rfl⟩
        simp [List.lookup_cons, show (kv.1 == k) = false from by simp [hkne]]
      rw [show rest.map
            (fun kv => (kv.1, HVal.many (kv.2.map mdValueToHeader))) =
          toHttp2Headers rest from rfl]
      rw [foldl_import_encode rest (acc.1 ++ [(k, vs)], acc.2) hwfrest hdisj2]
      simp

/-- C4 amended: for every well-formed Metadata whose keys are non-reserved
and none of which is a canonical array-index numeral,
`fromHttp2Headers (toHttp2Headers m)` gives back exactly `m` — same keys in
the same insertion order, the same value sequences, binary values
byte-identical after the base64 round trip — with no import error logged.
(When a key is a canonical numeral, JavaScript object enumeration moves it
in front, so only the per-key contents survive, not the insertion order.) -/
theorem metadata_roundTrip (m : MDRepr) (hwf : MetadataWF m)
    (hni : NoArrayIndexKeys m) :
    fromHttp2Headers (toHttp2Headers m) = (m, 0) := by
  unfold fromHttp2Headers
  rw [reorder_id_of_no_index (by
    intro kv hkv
    obtain ⟨kv0, hkv0, he⟩ := List.mem_map.mp hkv
    rw [← he]
    exact hni kv0 hkv0)]
  rw [foldl_import_encode m ([], 0) hwf (by intro kv _; rfl)]
  rfl

/-- C4 counterexample: the well-formed metadata with keys `b` then `1`
(a digit-only key is legal) comes back from the HTTP/2 round trip with the
keys in the opposite order, because JavaScript objects enumerate the
canonical numeric key `1` first; so the round trip is not the identity
claimed. -/
theorem numeric_key_reorders_roundtrip :
    MetadataWF [("b", [MDValue.text "x"]), ("1", [MDValue.text "y"])] ∧
    (fromHttp2Headers (toHttp2Headers
        [("b", [MDValue.text "x"]), ("1", [MDValue.text "y"])])).1 =
      [("1", [MDValue.text "y"]), ("b", [MDValue.text "x"])] ∧
    (fromHttp2Headers (toHttp2Headers
        [("b", [MDValue.text "x"]), ("1", [MDValue.text "y"])])).1 ≠
      [("b", [MDValue.text "x"]), ("1", [MDValue.text "y"])] := by
  refine ⟨by decide, by decide, by decide⟩

/-- Witness for C4 at a metadata with a text key and a `-bin` key. -/
theorem metadata_roundTrip_witness :
    fromHttp2Headers (toHttp2Headers
        [("trailer-present", [MDValue.text "yes"]),
         ("data-bin", [MDValue.bin [0, 255, 10]])]) =
      ([("trailer-present", [MDValue.text "yes"]),
        ("data-bin", [MDValue.bin [0, 255, 10]])], 0) :=
  metadata_roundTrip
    [("trailer-present", [MDValue.text "yes"]),
     ("data-bin", [MDValue.bin [0, 255, 10]])]
    (by decide) (by decide)


/-! ## C2: order preservation of the asynchronous deserialization pipeline -/

theorem deserAll_snoc {deser : α → Except String β} {done : List α}
    {out : List β} {fr : α} {d : β}
    (h : deserAll deser done = Except.ok out)
    (hd : deser fr = Except.ok d) :
    deserAll deser (done ++ [fr]) = Except.ok (out ++ [d]) := by
  induction done generalizing out with
  | nil =>
      simp only [deserAll] at h
      cases h
      simp [deserAll, hd]
  | cons a rest ih =>
      simp only [deserAll] at h ⊢
      cases ha : deser a with
      | error e => rw [ha] at h; simp at h
      | ok da =>
          rw [ha] at h
          cases hrest : deserAll deser rest with
          | error e => rw [hrest] at h; simp at h
          | ok outr =>
              rw [hrest] at h
              cases h
              rw [show rest.append [fr] = rest ++ [fr] from rfl, ih hrest]
              rfl

theorem rsInit_inv (deser : α → Except String β) :
    ReadInv deser (rsInit (α := α) (β := β)) := by
  right
  exact ⟨[], [], false, by simp [rsInit], by simp, by simp,
    by simp [rsInit], by simp [rsInit], by simp [rsInit, deserAll]⟩

theorem readDrainLoop_spec (cap : Nat → Bool) :
    ∀ (l : List (Option β)) (s : RState α β), s.toPush = [] →
      (readDrainLoop cap l s).pushed ++ (readDrainLoop cap l s).toPush =
          s.pushed ++ l ∧
        (readDrainLoop cap l s).pending = s.pending ∧
        (readDrainLoop cap l s).buffered = s.buffered ∧
        (readDrainLoop cap l s).arrived = s.arrived ∧
        (readDrainLoop cap l s).errored = s.errored ∧
        (readDrainLoop cap l s).ended = s.ended ∧
        ((readDrainLoop cap l s).canPush = true →
          (readDrainLoop cap l s).toPush = [])
  | [], s => by
      intro h
      simp [readDrainLoop, h]
  | m :: rest, s => by
      intro h
      simp only [readDrainLoop, jsPush]
      by_cases hstop : m.isNone ∨
          (match m with
           | none => false
           | some _ => cap s.pushCount) = false
      · rw [if_pos hstop]
        simp [h]
      · rw [if_neg hstop]
        have ih := readDrainLoop_spec cap rest
          { s with pushed := s.pushed ++ [m], pushCount := s.pushCount + 1 }
          (by simp [h])
        simp only at ih
        refine ⟨?_, ih.2.1, ih.2.2.1, ih.2.2.2.1, ih.2.2.2.2.1,
          ih.2.2.2.2.2.1, ih.2.2.2.2.2.2⟩
        rw [ih.1]
        simp

theorem readEvent_inv {deser : α → Except String β} {cap : Nat → Bool}
    {s : RState α β} (hinv : ReadInv deser s) :
    ReadInv deser (readEvent cap s) := by
  have hspec := readDrainLoop_spec cap s.toPush
    { s with canPush := true, toPush := [] } (by simp)
  rcases hinv with herr | ⟨done, fs, t, hbuf, hten, hpfs, hcp, harr, hdes⟩
  · left
    unfold readEvent
    rw [hspec.2.2.2.2.1]
    exact herr
  · right
    refine ⟨done, fs, t, ?_, ?_, ?_, ?_, ?_, ?_⟩
    · unfold readEvent
      rw [hspec.2.2.1]
      exact hbuf
    · unfold readEvent
      rw [hspec.2.2.2.2.2.1]
      exact hten
    · unfold readEvent
      rw [hspec.2.1]
      exact hpfs
    · unfold readEvent
      exact hspec.2.2.2.2.2.2
    · unfold readEvent
      rw [hspec.2.2.2.1, hspec.2.1]
      exact harr
    · unfold readEvent
      rw [hspec.1]
      simpa using hdes

theorem arriveOne_inv {deser : α → Except String β} {cap : Nat → Bool}
    {s : RState α β} {m : α} (hinv : ReadInv deser s)
    (hend : s.ended = false) :
    ReadInv deser (arriveOne cap s m) ∧
      (arriveOne cap s m).ended = false := by
  have hsplit : (∃ fr, s.pending = some fr ∧ arriveOne cap s m =
      { s with arrived := s.arrived ++ [m],
               buffered := s.buffered ++ [some m] }) ∨
      (s.pending = none ∧ arriveOne cap s m =
        { s with arrived := s.arrived ++ [m], pending := some m }) := by
    unfold arriveOne pushOrBuffer pushMessage
    cases hp : s.pending with
    | some fr => exact Or.inl ⟨fr, rfl, by simp [hp]⟩
    | none => exact Or.inr ⟨rfl, by simp [hp]⟩
  rcases hinv with herr | ⟨done, fs, t, hbuf, hten, hpfs, hcp, harr, hdes⟩
  · rcases hsplit with ⟨fr, hp, hst⟩ | ⟨hp, hst⟩ <;>
      (rw [hst]; exact ⟨Or.inl herr, hend⟩)
  · have ht : t = false := by
      cases t with
      | false => rfl
      | true => rw [hten rfl] at hend; cases hend
    subst ht
    rcases hsplit with ⟨fr, hp, hst⟩ | ⟨hp, hst⟩
    · rw [hst]
      refine ⟨Or.inr ⟨done, fs ++ [m], false, ?_, by simp, ?_, ?_, ?_, ?_⟩,
        hend⟩
      · simp only at hbuf ⊢
        simp [hbuf]
      · intro hpn
        simp only at hpn
        rw [hp] at hpn
        cases hpn
      · exact hcp
      · simp only [harr]
        simp
      · exact hdes
    · have hfs : fs = [] := hpfs hp
      subst hfs
      rw [hst]
      refine ⟨Or.inr ⟨done, [], false, ?_, by simp, ?_, ?_, ?_, ?_⟩, hend⟩
      · simpa using hbuf
      · intro _; rfl
      · exact hcp
      · simp only [harr, hp]
        simp
      · exact hdes

theorem pushDeserialized_spec {cap : Nat → Bool} {s : RState α β} {d : β}
    (hcp : s.canPush = true → s.toPush = []) :
    (pushDeserialized cap s d).pushed ++ (pushDeserialized cap s d).toPush =
        s.pushed ++ s.toPush ++ [some d] ∧
      (pushDeserialized cap s d).buffered = s.buffered ∧
      (pushDeserialized cap s d).pending = s.pending ∧
      (pushDeserialized cap s d).arrived = s.arrived ∧
      (pushDeserialized cap s d).errored = s.errored ∧
      (pushDeserialized cap s d).ended = s.ended ∧
      ((pushDeserialized cap s d).canPush = true →
        (pushDeserialized cap s d).toPush = []) := by
  unfold pushDeserialized jsPush
  by_cases hc : s.canPush = true
  · rw [hcp hc]
    by_cases hr : cap s.pushCount = true <;> simp [hc, hr, hcp hc]
  · simp [hc]

theorem endEvt_inv {deser : α → Except String β} {cap : Nat → Bool}
    {s : RState α β} (hinv : ReadInv deser s) (hend : s.ended = false) :
    ReadInv deser (pushOrBuffer cap { s with ended := true } none) := by
  have hsplit : (∃ fr, s.pending = some fr ∧
      pushOrBuffer cap { s with ended := true } none =
        { s with ended := true, buffered := s.buffered ++ [none] }) ∨
      (s.pending = none ∧ s.canPush = true ∧
        pushOrBuffer cap { s with ended := true } none =
          { s with ended := true, pushed := s.pushed ++ [none],
                   pushCount := s.pushCount + 1 }) ∨
      (s.pending = none ∧ s.canPush = false ∧
        pushOrBuffer cap { s with ended := true } none =
          { s with ended := true, toPush := s.toPush ++ [none] }) := by
    unfold pushOrBuffer pushMessage jsPush
    cases hp : s.pending with
    | some fr => exact Or.inl ⟨fr, rfl, by simp [hp]⟩
    | none =>
        by_cases hc : s.canPush = true
        · exact Or.inr (Or.inl ⟨rfl, hc, by simp [hp, hc]⟩)
        · refine Or.inr (Or.inr ⟨rfl, by simpa using hc, by simp [hp, hc]⟩)
  rcases hinv with herr | ⟨done, fs, t, hbuf, hten, hpfs, hcp, harr, hdes⟩
  · rcases hsplit with ⟨fr, hp, hst⟩ | ⟨hp, hc, hst⟩ | ⟨hp, hc, hst⟩ <;>
      (rw [hst]; exact Or.inl herr)
  · have ht : t = false := by
      cases t with
      | false => rfl
      | true => rw [hten rfl] at hend; cases hend
    subst ht
    rcases hsplit with ⟨fr, hp, hst⟩ | ⟨hp, hc, hst⟩ | ⟨hp, hc, hst⟩
    · rw [hst]
      refine Or.inr ⟨done, fs, true, ?_, fun _ => rfl, ?_, hcp, ?_, hdes⟩
      · simp only at hbuf ⊢
        simp [hbuf]
      · intro hpn
        simp only at hpn
        rw [hp] at hpn
        cases hpn
      · simpa using harr
    · rw [hst]
      have hfs : fs = [] := hpfs hp
      subst hfs
      refine Or.inr ⟨done, [], false, by simpa using hbuf, by simp,
        fun _ => rfl, by simpa using hcp, by simpa using harr, ?_⟩
      rw [hcp hc] at hdes ⊢
      simpa using hdes
    · rw [hst]
      have hfs : fs = [] := hpfs hp
      subst hfs
      refine Or.inr ⟨done, [], false, by simpa using hbuf, by simp,
        fun _ => rfl, ?_, by simpa using harr, ?_⟩
      · intro hcx
        simp only at hcx
        rw [hcx] at hc
        cases hc
      · simpa using hdes

theorem pushMessage_errored_keep {cap : Nat → Bool} {s : RState α β}
    {m : Option α} :
    (pushMessage cap s m).errored = s.errored := by
  unfold pushMessage jsPush
  cases m with
  | none => by_cases hc : s.canPush = true <;> simp [hc]
  | some fr => simp

theorem pushDeserialized_errored_keep {cap : Nat → Bool} {s : RState α β}
    {d : β} : (pushDeserialized cap s d).errored = s.errored := by
  unfold pushDeserialized jsPush
  by_cases hc : s.canPush = true
  · by_cases hr : cap s.pushCount = true <;> simp [hc, hr]
  · simp [hc]

theorem advanceBuffered_errored_keep {cap : Nat → Bool} {s2 : RState α β} :
    (advanceBuffered cap s2).errored = s2.errored := by
  unfold advanceBuffered
  cases hb : s2.buffered with
  | nil => rfl
  | cons m rest => rw [pushMessage_errored_keep]

theorem completeDeser_errored_keep {cap : Nat → Bool}
    {deser : α → Except String β} {s : RState α β} {fr : α}
    (h : s.errored = true) :
    (completeDeser cap deser s fr).errored = true := by
  unfold completeDeser
  cases hde : deser fr with
  | error e => rfl
  | ok d =>
      show (advanceBuffered cap
        { pushDeserialized cap s d with pending := none }).errored = true
      rw [advanceBuffered_errored_keep]
      show (pushDeserialized cap s d).errored = true
      rw [pushDeserialized_errored_keep]
      exact h

theorem advanceBuffered_inv {deser : α → Except String β} {cap : Nat → Bool}
    {s2 : RState α β} (done : List α) (fs : List α) (t : Bool)
    (hp2 : s2.pending = none)
    (hbuf : s2.buffered = fs.map some ++ (if t = true then [(none : Option α)] else []))
    (hten : t = true → s2.ended = true)
    (hcp : s2.canPush = true → s2.toPush = [])
    (harr : s2.arrived = done ++ fs)
    (hdes : deserAll deser done =
      Except.ok ((s2.pushed ++ s2.toPush).filterMap id)) :
    ReadInv deser (advanceBuffered cap s2) := by
  unfold advanceBuffered
  cases fs with
  | cons f fs2 =>
      simp only [List.map_cons, List.cons_append] at hbuf
      rw [hbuf]
      simp only [pushMessage]
      right
      refine ⟨done, fs2, t, by simp, by simpa using hten, by simp,
        by simpa using hcp, ?_, by simpa using hdes⟩
      simp only [harr]
      simp
  | nil =>
      cases t with
      | false =>
          have hbuf2 : s2.buffered = [] := by simpa using hbuf
          rw [hbuf2]
          refine Or.inr ⟨done, [], false, by simpa using hbuf2, by simp,
            fun _ => rfl, hcp, ?_, hdes⟩
          simpa [hp2] using harr
      | true =>
          have hbuf2 : s2.buffered = [(none : Option α)] := by simpa using hbuf
          have hsplit : (s2.canPush = true ∧
              pushMessage cap { s2 with buffered := ([] : List (Option α)) } none =
                { s2 with buffered := [], pushed := s2.pushed ++ [none],
                          pushCount := s2.pushCount + 1 }) ∨
              (s2.canPush = false ∧
                pushMessage cap { s2 with buffered := ([] : List (Option α)) } none =
                  { s2 with buffered := [], toPush := s2.toPush ++ [none] }) := by
            unfold pushMessage jsPush
            by_cases hc : s2.canPush = true
            · exact Or.inl ⟨hc, by simp [hc]⟩
            · exact Or.inr ⟨by simpa using hc, by simp [hc]⟩
          rw [hbuf2]
          show ReadInv deser
            (pushMessage cap { s2 with buffered := ([] : List (Option α)) } none)
          rcases hsplit with ⟨hc, hst⟩ | ⟨hc, hst⟩
          · rw [hst]
            refine Or.inr ⟨done, [], false, by simp, by simp,
              fun _ => rfl, ?_, ?_, ?_⟩
            · intro _
              simpa using hcp hc
            · simpa [hp2] using harr
            · simpa [hcp hc] using hdes
          · rw [hst]
            refine Or.inr ⟨done, [], false, by simp, by simp,
              fun _ => rfl, ?_, ?_, ?_⟩
            · intro hcx
              simp only at hcx
              rw [hcx] at hc
              cases hc
            · simpa [hp2] using harr
            · simpa using hdes

theorem completeDeser_inv {deser : α → Except String β} {cap : Nat → Bool}
    {s : RState α β} {fr : α} (hinv : ReadInv deser s)
    (hp : s.pending = some fr) :
    ReadInv deser (completeDeser cap deser s fr) := by
  rcases hinv with herr | ⟨done, fs, t, hbuf, hten, hpfs, hcp, harr, hdes⟩
  · exact Or.inl (completeDeser_errored_keep herr)
  · unfold completeDeser
    cases hde : deser fr with
    | error e => exact Or.inl rfl
    | ok d =>
        have hspec := @pushDeserialized_spec α β cap s d hcp
        show ReadInv deser (advanceBuffered cap
          { pushDeserialized cap s d with pending := none })
        apply advanceBuffered_inv (done ++ [fr]) fs t
        · rfl
        · simp only [hspec.2.1]
          exact hbuf
        · intro ht
          simp only [hspec.2.2.2.2.2.1]
          exact hten ht
        · intro hcx
          exact hspec.2.2.2.2.2.2 hcx
        · simp only [hspec.2.2.2.1]
          rw [harr, hp]
          simp
        · rw [deserAll_snoc hdes hde]
          simp only [hspec.1]
          simp

theorem foldl_arriveOne_inv {deser : α → Except String β} {cap : Nat → Bool} :
    ∀ (frames : List α) (s : RState α β), ReadInv deser s →
      s.ended = false →
      ReadInv deser (frames.foldl (arriveOne cap) s) ∧
        (frames.foldl (arriveOne cap) s).ended = false
  | [], s => fun hinv hend => ⟨hinv, hend⟩
  | m :: rest, s => fun hinv hend => by
      simp only [List.foldl_cons]
      have h1 := @arriveOne_inv α β deser cap s m hinv hend
      exact foldl_arriveOne_inv rest _ h1.1 h1.2

theorem rstep_inv {deser : α → Except String β} {cap : Nat → Bool}
    {s s1 : RState α β} {e : REvent α} (hinv : ReadInv deser s)
    (hstep : rstep cap deser s e = some s1) : ReadInv deser s1 := by
  cases e with
  | dataEvt frames =>
      simp only [rstep] at hstep
      by_cases hend : s.ended = true
      · rw [if_pos hend] at hstep
        cases hstep
      · rw [if_neg hend] at hstep
        injection hstep with h
        subst h
        exact (foldl_arriveOne_inv frames s hinv (by simpa using hend)).1
  | endEvt =>
      simp only [rstep] at hstep
      by_cases hend : s.ended = true
      · rw [if_pos hend] at hstep
        cases hstep
      · rw [if_neg hend] at hstep
        injection hstep with h
        subst h
        exact endEvt_inv hinv (by simpa using hend)
  | completeEvt =>
      simp only [rstep] at hstep
      cases hp : s.pending with
      | none =>
          rw [hp] at hstep
          cases hstep
      | some fr =>
          rw [hp] at hstep
          injection hstep with h
          subst h
          exact completeDeser_inv hinv hp
  | readEvt =>
      simp only [rstep] at hstep
      injection hstep with h
      subst h
      exact readEvent_inv hinv

theorem runSteps_inv {deser : α → Except String β} {cap : Nat → Bool} :
    ∀ (events : List (REvent α)) (s s1 : RState α β), ReadInv deser s →
      runSteps cap deser s events = some s1 → ReadInv deser s1
  | [], s, s1 => fun hinv hrun => by
      simp only [runSteps] at hrun
      injection hrun with h
      exact h ▸ hinv
  | e :: rest, s, s1 => fun hinv hrun => by
      simp only [runSteps] at hrun
      cases hstep : rstep cap deser s e with
      | none =>
          rw [hstep] at hrun
          cases hrun
      | some s2 =>
          rw [hstep] at hrun
          exact runSteps_inv rest s2 s1 (rstep_inv hinv hstep) hrun

/-- C2: on every admissible interleaving of data, end, deserialization
completion and read events from the initial readable state, the sequence
committed for delivery to user code is exactly the deserialization, in
order, of a prefix of the frames that arrived in wire order — and once no
deserialization is pending, of all of them; so asynchronous
deserialization delivers the peer's framed messages in wire order. -/
theorem deserialization_preserves_wire_order
    (cap : Nat → Bool) (deser : α → Except String β)
    (events : List (REvent α)) (s : RState α β)
    (hrun : runSteps cap deser rsInit events = some s)
    (herr : s.errored = false) :
    ∃ done rest, s.arrived = done ++ rest ∧
      deserAll deser done = Except.ok (deliveredSeq s) ∧
      (s.pending = none → rest = []) := by
  have hinv := runSteps_inv events rsInit s (rsInit_inv deser) hrun
  rcases hinv with herr2 | ⟨done, fs, t, hbuf, hten, hpfs, hcp, harr, hdes⟩
  · rw [herr2] at herr
    cases herr
  · refine ⟨done, s.pending.toList ++ fs, by simpa using harr, hdes, ?_⟩
    intro hp
    rw [hp, hpfs hp]
    rfl

theorem deserialization_preserves_wire_order_witness :
    (runSteps (fun _ => true) c2Deser rsInit c2Events = some c2Final ∧
      c2Final.errored = false) ∧
    ∃ done rest, c2Final.arrived = done ++ rest ∧
      deserAll c2Deser done = Except.ok (deliveredSeq c2Final) ∧
      (c2Final.pending = none → rest = []) :=
  ⟨⟨rfl, rfl⟩,
   deserialization_preserves_wire_order (fun _ => true) c2Deser c2Events
     c2Final rfl rfl⟩


end GrpcJs
